import Mathlib

/-!
# Verification of the MFKDF setup/derive core

This file gives a shallow embedding of the multi-factor key derivation
library (`setup.key`, `derive.key`, the per-factor pad construction, the
HMAC-SHA1 challenge-response factor) and proves properties of the
embedding.

Byte strings (Node `Buffer`s) are modelled as `List Nat`; a well-formed
buffer has all entries below 256.  The secret-sharing layer
(`share` / `combine` / `recover`), the KDF engine and the HKDF primitive
are not part of the source tree (only their call sites are), so they are
modelled from the specification: Shamir sharing over a prime field
`ZMod p`, and the KDF / HKDF primitives are either taken as opaque
deterministic parameters (the orchestrator theorems hold for every such
primitive) or, for PBKDF2-HMAC-SHA1, implemented concretely.
-/

namespace MFKDF

/-- Byte strings are lists of naturals; buffers produced by the code have
entries below 256. -/
abbrev Bytes := List Nat

/-- The npm `buffer-xor` primitive: byte-wise XOR, truncated to the shorter
operand. -/
def xorBytes (a b : Bytes) : Bytes := List.zipWith Nat.xor a b

/-- Big-endian fixed-width encoding of a natural as `len` bytes. -/
def natToBytesBE : Nat → Nat → Bytes
  | 0, _ => []
  | len+1, n => (n / 256 ^ len) % 256 :: natToBytesBE len (n % 256 ^ len)

/-- Big-endian decoding of a byte string to a natural. -/
def bytesToNatBE (l : Bytes) : Nat := l.foldl (fun acc b => acc * 256 + b) 0

/-! ## SHA-1, HMAC-SHA1 and PBKDF2

The KDF engine (the pbkdf2 branch of the uniform kdf interface) is not part
of the source tree; it is modelled from the spec as standard
PBKDF2-HMAC-SHA1, implemented below on packed naturals. -/

/-- Mask selecting the low 32 bits of a natural. -/
def M32 : Nat := 4294967295

/-- Rotation of a 32-bit word left by n bits. -/
def rotl (n x : Nat) : Nat := ((x <<< n) ||| (x >>> (32 - n))) &&& M32

/-- Word i of a packed word vector (word i occupies bits 32*i and up). -/
def getW (W i : Nat) : Nat := (W >>> (32 * i)) &&& M32

/-- Extension of the packed SHA-1 message schedule to 80 words; the fuel
argument counts the words still missing. -/
def sched : Nat → Nat → Nat
  | W, 0 => W
  | W, fuel+1 =>
    let t := 80 - (fuel+1)
    let w := rotl 1 ((getW W (t-3)) ^^^ (getW W (t-8)) ^^^ (getW W (t-14)) ^^^ (getW W (t-16)))
    sched (W ||| (w <<< (32 * t))) fuel

/-- Round function for SHA-1 rounds 0 to 19. -/
def fCh (b c d : Nat) : Nat := (b &&& c) ||| ((b ^^^ M32) &&& d)

/-- Round function for SHA-1 rounds 20 to 39 and 60 to 79. -/
def fParity (b c d : Nat) : Nat := b ^^^ c ^^^ d

/-- Round function for SHA-1 rounds 40 to 59. -/
def fMaj (b c d : Nat) : Nat := (b &&& c) ||| (b &&& d) ||| (c &&& d)

/-- Twenty SHA-1 rounds with round function f and constant k; the state is
the round counter followed by the five working variables. -/
def roundsGen (f : Nat → Nat → Nat → Nat) (k W : Nat) :
    Nat → Nat × Nat × Nat × Nat × Nat × Nat → Nat × Nat × Nat × Nat × Nat × Nat
  | 0, s => s
  | fuel+1, (t, a, b, c, d, e) =>
    let tmp := (rotl 5 a + f b c d + e + k + getW W t) &&& M32
    roundsGen f k W fuel (t+1, tmp, a, rotl 30 b, c, d)

/-- One SHA-1 compression of a 512-bit block (packed big-endian into one
natural) into the running five-word state. -/
def compress (h : Nat × Nat × Nat × Nat × Nat) (B : Nat) : Nat × Nat × Nat × Nat × Nat :=
  let W0 := (List.range 16).foldl (fun acc t => acc ||| ((B >>> (32 * (15 - t))) &&& M32) <<< (32 * t)) 0
  let W := sched W0 64
  let (h0, h1, h2, h3, h4) := h
  let s1 := roundsGen fCh 0x5A827999 W 20 (0, h0, h1, h2, h3, h4)
  let s2 := roundsGen fParity 0x6ED9EBA1 W 20 s1
  let s3 := roundsGen fMaj 0x8F1BBCDC W 20 s2
  let s4 := roundsGen fParity 0xCA62C1D6 W 20 s3
  let (_, a, b, c, d, e) := s4
  ((h0 + a) &&& M32, (h1 + b) &&& M32, (h2 + c) &&& M32, (h3 + d) &&& M32, (h4 + e) &&& M32)

/-- Initial SHA-1 chaining state. -/
def initH : Nat × Nat × Nat × Nat × Nat := (0x67452301, 0xEFCDAB89, 0x98BADCFE, 0x10325476, 0xC3D2E1F0)

/-- Worker splitting a byte list into 64-byte blocks packed big-endian into
one natural each; acc holds the bytes packed so far and cnt their number. -/
def chunksAux : List Nat → Nat → Nat → List Nat
  | [], _, _ => []
  | b :: rest, acc, cnt =>
    if cnt = 63 then (acc * 256 + b) :: chunksAux rest 0 0
    else chunksAux rest (acc * 256 + b) (cnt + 1)

/-- Split of a byte list (whose length is a multiple of 64) into packed
512-bit blocks. -/
def chunksOf64 (l : List Nat) : List Nat := chunksAux l 0 0

/-- SHA-1 padding: append 0x80, zeros, and the 64-bit big-endian bit
length, then split into packed blocks. -/
def sha1pad (msg : List Nat) : List Nat :=
  let len := msg.length
  let bitlen := len * 8
  let padlen := (119 - len % 64) % 64
  let full := msg ++ [0x80] ++ List.replicate padlen 0 ++ natToBytesBE 8 bitlen
  chunksOf64 full

/-- SHA-1 digest of a byte string, packed into a single 160-bit natural. -/
def sha1Nat (msg : List Nat) : Nat :=
  let hs := (sha1pad msg).foldl compress initH
  let (h0, h1, h2, h3, h4) := hs
  (((((((h0 <<< 32) ||| h1) <<< 32) ||| h2) <<< 32) ||| h3) <<< 32) ||| h4

/-- SHA-1 digest of a byte string as 20 bytes. -/
def sha1Bytes (msg : List Nat) : List Nat := natToBytesBE 20 (sha1Nat msg)

/-- HMAC-SHA1 (RFC 2104) with byte-string key and message. -/
def hmacSha1 (key msg : List Nat) : List Nat :=
  let k := if key.length > 64 then sha1Bytes key else key
  let k0 := k ++ List.replicate (64 - k.length) 0
  let ipad := k0.map (fun b => b ^^^ 0x36)
  let opad := k0.map (fun b => b ^^^ 0x5c)
  sha1Bytes (opad ++ sha1Bytes (ipad ++ msg))

/-- Iterated xor-accumulation of HMAC applications used by PBKDF2 (RFC
2898); u is the last U value and acc the xor of all U values so far. -/
def pbkdf2F (pw u acc : List Nat) : Nat → List Nat
  | 0 => acc
  | c+1 =>
    let u2 := hmacSha1 pw u
    pbkdf2F pw u2 (xorBytes acc u2) c

/-- Block i of PBKDF2-HMAC-SHA1 with c rounds. -/
def pbkdf2Block (pw salt : List Nat) (c i : Nat) : List Nat :=
  let u1 := hmacSha1 pw (salt ++ natToBytesBE 4 i)
  pbkdf2F pw u1 u1 (c - 1)

/-- PBKDF2-HMAC-SHA1 (RFC 2898): derive dkLen bytes from a password and a
salt using c rounds. -/
def pbkdf2Sha1 (pw salt : List Nat) (c dkLen : Nat) : List Nat :=
  (((List.range ((dkLen + 19) / 20)).map (fun i => pbkdf2Block pw salt c (i+1))).flatten).take dkLen

/-! ## The secret-sharing layer

Modelled from the spec: the share / combine / recover operations of the
secret-sharing layer are not under the source tree (only their call sites
in setup and derive are).  Per the spec they are Shamir sharing over a
field large enough to encode size-byte values (here a prime field
ZMod p): share i is P(i) for a polynomial P of degree threshold - 1 with
P(0) = secret, combine Lagrange-interpolates P(0) from at least threshold
non-null shares at their original indices, and recover re-evaluates P at
every index 1..n.  Share buffers are one byte longer than the key size
(the spec allows shares up to one byte longer). -/

/-- Horner evaluation of the polynomial with the given coefficient list
(constant term first). -/
def polyEval (p : ℕ) (coeffs : List (ZMod p)) (x : ZMod p) : ZMod p :=
  coeffs.foldr (fun c acc => c + x * acc) 0

/-- Modelled from the spec: share(secret, t, n) evaluates the polynomial
with constant term secret and the given higher coefficients at 1..n and
encodes each value big-endian as size+1 bytes. -/
def shamirShare (p : ℕ) (size : Nat) (secret : Bytes) (coeffs : List (ZMod p)) (n : Nat) :
    List Bytes :=
  (List.range n).map fun i =>
    natToBytesBE (size + 1)
      (polyEval p (((bytesToNatBE secret : ℕ) : ZMod p) :: coeffs) ((i + 1 : ℕ) : ZMod p)).val

/-- Lagrange evaluation at x0 of the interpolating polynomial through the
given points (whose nodes are pairwise distinct). -/
def lagrangeEval (p : ℕ) [Fact p.Prime] (pts : List (ZMod p × ZMod p)) (x0 : ZMod p) : ZMod p :=
  (pts.map fun q => q.2 *
    ((pts.filter fun r => decide (r.1 ≠ q.1)).map fun r => (x0 - r.1) * (q.1 - r.1)⁻¹).prod).sum

/-- Points selected by combine and recover: the first t non-null shares,
paired with their one-based indices, both mapped into the field. -/
def selectPoints (p : ℕ) (shares : List (Option Bytes)) (t : Nat) : List (ZMod p × ZMod p) :=
  (shares.enum.filterMap fun q =>
    q.2.map fun b => (((q.1 + 1 : ℕ) : ZMod p), ((bytesToNatBE b : ℕ) : ZMod p))).take t

/-- Modelled from the spec: combine(shares, t, n) Lagrange-interpolates
P(0) from the first t non-null shares at their original indices and
re-encodes it as size bytes. -/
def combine (p : ℕ) [Fact p.Prime] (shares : List (Option Bytes)) (t _n size : Nat) : Bytes :=
  natToBytesBE size (lagrangeEval p (selectPoints p shares t) 0).val

/-- Modelled from the spec: recover(shares, t, n) reconstructs the full
share vector by re-evaluating the interpolated polynomial at 1..n. -/
def recoverShares (p : ℕ) [Fact p.Prime] (shares : List (Option Bytes)) (t n size : Nat) :
    List Bytes :=
  (List.range n).map fun i =>
    natToBytesBE (size + 1) (lagrangeEval p (selectPoints p shares t) ((i + 1 : ℕ) : ZMod p)).val

/-- Coefficient list (constant term first) viewed as a polynomial; proof
device relating polyEval to Mathlib interpolation. -/
noncomputable def polyOfCoeffs (p : ℕ) : List (ZMod p) → Polynomial (ZMod p)
  | [] => 0
  | c :: cs => Polynomial.C c + Polynomial.X * polyOfCoeffs p cs

/-! ## Data model -/

/-- Digest choices of the pbkdf2 branch of the KDF spec. -/
inductive Digest
  | sha1
  | sha256
  | sha384
  | sha512
deriving DecidableEq

/-- Tagged union of KDF algorithms and their parameters (the kdf field of
a policy, as produced by the setup-side kdf validator, which is not under
the source tree; its output shape is taken from the spec table). -/
inductive KdfSpec
  | pbkdf2 (rounds : Nat) (digest : Digest)
  | bcrypt (rounds : Nat)
  | scrypt (cost blocksize parallelism : Nat)
  | argon2i (time mem parallelism : Nat)
  | argon2d (time mem parallelism : Nat)
  | argon2id (time mem parallelism : Nat)
deriving DecidableEq

/-- Per-factor record stored in a policy: id, type, pad (base64-encoded in
the JSON document; carried here as the decoded bytes) and public params. -/
structure PolicyFactor (P : Type) where
  id : String
  type : String
  pad : Bytes
  params : P
deriving DecidableEq

/-- Key policy, the durable artifact; the salt is carried as the decoded
bytes of the base64 field. -/
structure Policy (P : Type) where
  id : String
  size : Nat
  threshold : Nat
  salt : Bytes
  kdf : KdfSpec
  factors : List (PolicyFactor P)
deriving DecidableEq

/-- Setup-side factor contract: typed material with an id, secret data, a
reported entropy, a deferred params producer (invoked with the derived
key) and a public output. -/
structure MFKDFFactor (P O : Type) where
  type : String
  id : String
  data : Bytes
  entropy : ℚ
  params : Bytes → P
  output : O

/-- Entropy report attached to a setup result. -/
structure EntropyBits where
  theoretical : Nat
  real : ℚ
deriving DecidableEq

/-- In-memory result of setup or derive (the MFKDFDerivedKey class is not
under the source tree: per the spec it stores its constructor arguments;
outputs and entropyBits are only set by setup). -/
structure MFKDFDerivedKey (P O : Type) where
  policy : Policy P
  key : Bytes
  secret : Bytes
  shares : List Bytes
  outputs : Option (List (String × O))
  entropyBits : Option EntropyBits

/-- Setup-side validation failure (TypeError / RangeError in JS; the spec
groups both as InvalidArgument). -/
inductive SetupError
  | invalidArgument
deriving DecidableEq

/-- Derive-side failures. -/
inductive DeriveError
  | invalidPolicy
  | insufficientShares
  | factorTypeMismatch
deriving DecidableEq

/-- Options accepted by setup.key after merging the defaults of
defaults.js (size 32, kdf argon2id with time 2, memory 24576, parallelism
1); kdf settings arrive already shaped as a KdfSpec. -/
structure KeySetupOptions where
  id : Option String := none
  size : Nat := 32
  threshold : Option Nat := none
  salt : Option Bytes := none
  kdf : KdfSpec := KdfSpec.argon2id 2 24576 1

/-! ## Setup (setup.key of the source) -/

/-- Pad construction of setup: stretch the factor data to the key size
with HKDF-SHA512 and xor with the share, left-padding the stretched bytes
with zeros when the share is longer than the key size. -/
def setupPad (hkdfFn : Bytes → Nat → Bytes) (size : Nat) (share data : Bytes) : Bytes :=
  let stretched0 := hkdfFn data size
  let stretched :=
    if share.length > size then List.replicate (share.length - size) 0 ++ stretched0
    else stretched0
  xorBytes share stretched

variable {P O : Type}

/-- Validation and setup of a multi-factor derived key (setup.key of the
source).  The random inputs drawn inside the JS function are passed
explicitly: the generated uuid, the default salt, the secret, and the
coefficients of the sharing polynomial. -/
def setupKey (p : ℕ) (hkdfFn : Bytes → Nat → Bytes)
    (kdfFn : Bytes → Bytes → Nat → KdfSpec → Bytes)
    (factors : List (MFKDFFactor P O)) (opts : KeySetupOptions)
    (uuid : String) (randSalt : Bytes) (secret : Bytes) (coeffs : List (ZMod p)) :
    Except SetupError (MFKDFDerivedKey P O) :=
  if factors.length = 0 then .error .invalidArgument
  else
    let idv := opts.id.getD uuid
    if idv = "" then .error .invalidArgument
    else if opts.size = 0 then .error .invalidArgument
    else
      let t := opts.threshold.getD factors.length
      if t = 0 then .error .invalidArgument
      else if factors.length < t then .error .invalidArgument
      else
        let salt := opts.salt.getD randSalt
        if ¬ (∀ f ∈ factors, f.type ≠ "" ∧ f.id ≠ "" ∧ f.data ≠ []) then .error .invalidArgument
        else if ¬ (factors.map (fun f => f.id)).Nodup then .error .invalidArgument
        else
          let key := kdfFn secret salt opts.size opts.kdf
          let shares := shamirShare p opts.size secret coeffs factors.length
          let polFactors := List.zipWith
            (fun f s => PolicyFactor.mk f.id f.type (setupPad hkdfFn opts.size s f.data)
              (f.params key)) factors shares
          let policy : Policy P := ⟨idv, opts.size, t, salt, opts.kdf, polFactors⟩
          let outputs := factors.map (fun f => (f.id, f.output))
          let theoretical :=
            ((List.insertionSort (· ≤ ·) (factors.map (fun f => 8 * f.data.length))).take t).sum
          let realEnt :=
            ((List.insertionSort (· ≤ ·) (factors.map (fun f => f.entropy))).take t).sum
          .ok ⟨policy, key, secret, shares, some outputs, some ⟨theoretical, realEnt⟩⟩

/-! ## Derive (derive.key of the source) -/

/-- Whether a policy passes JSON schema validation; in this typed model
the residue of the v1.0.0 schema is: positive size, positive threshold
and a non-empty id. -/
def schemaValid (policy : Policy P) : Prop :=
  0 < policy.size ∧ 0 < policy.threshold ∧ policy.id ≠ ""

instance (policy : Policy P) : Decidable (schemaValid policy) := by
  unfold schemaValid
  exact inferInstance

/-- Material returned by a derive-side factor producer; params is a
deferred producer (a function in JS) or absent (any non-function value). -/
structure FactorMaterial (P : Type) where
  type : String
  data : Bytes
  params : Option (Bytes → P)

/-- An entry of the factor map passed to derive: JS allows any value, and
derive invokes an entry only when it is a function. -/
inductive SuppliedEntry (P : Type)
  | callable (producer : P → FactorMaterial P)
  | notCallable

/-- Property lookup in the supplied factor map. -/
def lookupFactor (supplied : List (String × SuppliedEntry P)) (id : String) :
    Option (SuppliedEntry P) :=
  (supplied.find? (fun e => decide (e.1 = id))).map (fun e => e.2)

/-- Processing of one policy factor slot in derive: a callable entry is
invoked with the slot params; persisted material provides the share
directly, otherwise the material type must match the slot type and the
share is recovered as pad xor stretched (stretched left-padded with zeros
when the pad is longer than the key size).  Missing or non-callable
entries produce a null share and no params producer. -/
def processFactor (hkdfFn : Bytes → Nat → Bytes) (size : Nat) (pf : PolicyFactor P)
    (entry : Option (SuppliedEntry P)) :
    Except DeriveError (Option Bytes × Option (Bytes → P)) :=
  match entry with
  | some (.callable producer) =>
    let material := producer pf.params
    if material.type = "persisted" then
      .ok (some material.data, material.params)
    else if material.type ≠ pf.type then
      .error .factorTypeMismatch
    else
      let pad := pf.pad
      let stretched0 := hkdfFn material.data size
      let stretched :=
        if pad.length > size then List.replicate (pad.length - size) 0 ++ stretched0
        else stretched0
      .ok (some (xorBytes pad stretched), material.params)
  | _ => .ok (none, none)

/-- The factor loop of derive, accumulating shares and params producers
slot by slot. -/
def processFactors (hkdfFn : Bytes → Nat → Bytes) (size : Nat)
    (supplied : List (String × SuppliedEntry P)) :
    List (PolicyFactor P) → Except DeriveError (List (Option Bytes) × List (Option (Bytes → P)))
  | [] => .ok ([], [])
  | pf :: rest =>
    match processFactor hkdfFn size pf (lookupFactor supplied pf.id) with
    | .error e => .error e
    | .ok (s, nf) =>
      match processFactors hkdfFn size supplied rest with
      | .error e => .error e
      | .ok (ss, nfs) => .ok (s :: ss, nf :: nfs)

/-- Param rotation step of derive: slots whose producer yielded a params
callable are rewritten with the callable applied to the fresh key; all
other slots keep the params of the cloned policy. -/
def rotateParams (key : Bytes) (factors : List (PolicyFactor P))
    (newFactors : List (Option (Bytes → P))) : List (PolicyFactor P) :=
  List.zipWith (fun pf nf =>
    match nf with
    | some f => { pf with params := f key }
    | none => pf) factors newFactors

/-- Derivation of a key from a policy and a map of factor producers
(derive.key of the source). -/
def deriveKey (p : ℕ) [Fact p.Prime] (hkdfFn : Bytes → Nat → Bytes)
    (kdfFn : Bytes → Bytes → Nat → KdfSpec → Bytes) (policy : Policy P)
    (supplied : List (String × SuppliedEntry P)) :
    Except DeriveError (MFKDFDerivedKey P Unit) :=
  if ¬ schemaValid policy then .error .invalidPolicy
  else if supplied.length < policy.threshold then .error .insufficientShares
  else
    match processFactors hkdfFn policy.size supplied policy.factors with
    | .error e => .error e
    | .ok (shares, newFactors) =>
      if shares.countP (fun o => o.isSome) < policy.threshold then .error .insufficientShares
      else
        let secret := combine p shares policy.threshold policy.factors.length policy.size
        let key := kdfFn secret policy.salt policy.size policy.kdf
        let newPolicy : Policy P := { policy with factors := rotateParams key policy.factors newFactors }
        let originalShares := recoverShares p shares policy.threshold policy.factors.length policy.size
        .ok ⟨newPolicy, key, secret, originalShares, none, none⟩

/-! ## The HMAC-SHA1 challenge-response factor (setup side) -/

/-- Public params stored in the policy for the hmacsha1 factor (hex
strings in JS; carried as raw bytes). -/
structure HmacParams where
  challenge : Bytes
  pad : Bytes
deriving DecidableEq

/-- Public output of the hmacsha1 factor setup. -/
structure HmacOutput where
  secret : Bytes
deriving DecidableEq

/-- Setup of the YubiKey-compatible HMAC-SHA1 challenge-response factor;
the fresh 64-byte challenge drawn inside the params producer is passed
explicitly.  Validation: non-empty id and a 20-byte secret. -/
def hmacsha1Setup (id : String) (secret challenge : Bytes) :
    Except SetupError (MFKDFFactor HmacParams HmacOutput) :=
  if id = "" then .error .invalidArgument
  else if secret.length ≠ 20 then .error .invalidArgument
  else .ok
    { type := "hmacsha1"
      id := id
      data := secret
      entropy := 160
      params := fun _key =>
        let response := hmacSha1 secret challenge
        ⟨challenge, xorBytes (response.take 20) secret⟩
      output := ⟨secret⟩ }

/-! ## Shared concrete primitives for witnesses -/

/-- Degenerate but length-correct stand-in for HKDF-SHA512 used to
instantiate theorems that hold for every deterministic primitive. -/
def constHkdf : Bytes → Nat → Bytes := fun _ n => List.replicate n 0

/-- Degenerate KDF (returns its input) used to instantiate theorems that
hold for every deterministic KDF. -/
def idKdf : Bytes → Bytes → Nat → KdfSpec → Bytes := fun s _ _ _ => s

instance fact257 : Fact (Nat.Prime 257) := ⟨by norm_num⟩

/-- Concrete policy used by witnesses: one password factor, threshold 1,
key size 1. -/
def polC2 : Policy Unit :=
  ⟨"k", 1, 1, [0], KdfSpec.bcrypt 10, [⟨"a", "password", [5], ()⟩]⟩

/-- Policy used by the C8 witness: one password factor with pad [5]. -/
def polC8 : Policy Unit :=
  ⟨"k", 1, 1, [0], KdfSpec.bcrypt 10, [⟨"a", "password", [5], ()⟩]⟩

/-- Factor list used by the C6 witness: data lengths 1 and 2, entropies 3
and 1/2. -/
def facsC6 : List (MFKDFFactor Unit Unit) :=
  [⟨"password", "a", [5], 3, fun _ => (), ()⟩,
   ⟨"uuid", "b", [6, 7], 1 / 2, fun _ => (), ()⟩]

/-- Factor list used by the C5 counterexample: a single valid password
factor. -/
def facsC5 : List (MFKDFFactor Unit Unit) :=
  [⟨"password", "pw", [1], 0, fun _ => (), ()⟩]

/-- Whether a map entry value is a function. -/
def SuppliedEntry.isCallable : SuppliedEntry P → Bool
  | .callable _ => true
  | .notCallable => false

/-- Whether an optional map entry is a callable. -/
def entryIsCallableOpt : Option (SuppliedEntry P) → Bool
  | some (SuppliedEntry.callable _) => true
  | _ => false

/-- Whether the lookup of an id in the supplied map yields a callable. -/
def lookupCallable (supplied : List (String × SuppliedEntry P)) (id : String) : Bool :=
  entryIsCallableOpt (lookupFactor supplied id)

/-- Policy used by the C9 witness and counterexample: two password
factors, threshold 2. -/
def polC9 : Policy Unit :=
  ⟨"k", 1, 2, [0], KdfSpec.bcrypt 10,
    [⟨"a", "password", [5], ()⟩, ⟨"b", "password", [6], ()⟩]⟩

/-- Factor list used by the C1 counterexample: a single factor whose type
is the reserved string "persisted". -/
def facsPersisted : List (MFKDFFactor Unit Unit) :=
  [⟨"persisted", "a", [7], 0, fun _ => (), ()⟩]

/-- Factor list used by the C1 witness. -/
def facsRT : List (MFKDFFactor Unit Unit) :=
  [⟨"password", "a", [3], 1, fun _ => (), ()⟩,
   ⟨"uuid", "b", [4], 2, fun _ => (), ()⟩]

/-! ## Properties and claim theorems -/

theorem xorBytes_length (a b : Bytes) : (xorBytes a b).length = min a.length b.length := by
  simp [xorBytes]

theorem xorBytes_xorBytes_cancel :
    ∀ (s r : Bytes), s.length ≤ r.length → xorBytes (xorBytes s r) r = s := by
  intro s
  induction s with
  | nil => intro r _; simp [xorBytes]
  | cons a s2 ih =>
    intro r hr
    cases r with
    | nil => simp at hr
    | cons b r2 =>
      simp only [List.length_cons, Nat.succ_le_succ_iff] at hr
      have h1 : (a ^^^ b) ^^^ b = a := by
        rw [Nat.xor_assoc, Nat.xor_self, Nat.xor_zero]
      have h2 := ih r2 hr
      simp only [xorBytes] at h2 ⊢
      simp only [List.zipWith_cons_cons, h2]
      show ((a ^^^ b) ^^^ b) :: s2 = a :: s2
      rw [h1]

theorem natToBytesBE_length : ∀ (len n : Nat), (natToBytesBE len n).length = len := by
  intro len
  induction len with
  | zero => intro n; rfl
  | succ k ih => intro n; simp [natToBytesBE, ih]

theorem natToBytesBE_lt : ∀ (len n : Nat), ∀ b ∈ natToBytesBE len n, b < 256 := by
  intro len
  induction len with
  | zero => intro n b hb; simp [natToBytesBE] at hb
  | succ k ih =>
    intro n b hb
    simp only [natToBytesBE, List.mem_cons] at hb
    rcases hb with h | h
    · omega
    · exact ih _ b h

theorem bytesToNatBE_foldl_acc :
    ∀ (l : Bytes) (acc : Nat),
      l.foldl (fun a b => a * 256 + b) acc = acc * 256 ^ l.length + bytesToNatBE l := by
  intro l
  induction l with
  | nil => intro acc; simp [bytesToNatBE]
  | cons b l2 ih =>
    intro acc
    simp only [List.foldl_cons, List.length_cons, bytesToNatBE]
    rw [ih (acc * 256 + b), ih (0 * 256 + b)]
    ring

theorem bytesToNatBE_lt :
    ∀ (l : Bytes), (∀ b ∈ l, b < 256) → bytesToNatBE l < 256 ^ l.length := by
  intro l
  induction l with
  | nil => intro _; simp [bytesToNatBE]
  | cons b l2 ih =>
    intro h
    have hb : b < 256 := h b (by simp)
    have h2 := ih (fun x hx => h x (by simp [hx]))
    show (b :: l2).foldl (fun a b => a * 256 + b) 0 < 256 ^ (b :: l2).length
    simp only [List.foldl_cons, List.length_cons]
    calc (l2.foldl (fun a b => a * 256 + b) (0 * 256 + b))
        = (0 * 256 + b) * 256 ^ l2.length + bytesToNatBE l2 := bytesToNatBE_foldl_acc l2 _
      _ = b * 256 ^ l2.length + bytesToNatBE l2 := by ring
      _ < b * 256 ^ l2.length + 256 ^ l2.length := Nat.add_lt_add_left h2 _
      _ = (b + 1) * 256 ^ l2.length := by ring
      _ ≤ 256 * 256 ^ l2.length := Nat.mul_le_mul_right _ (by omega)
      _ = 256 ^ (l2.length + 1) := by ring

theorem bytesToNatBE_natToBytesBE :
    ∀ (len n : Nat), n < 256 ^ len → bytesToNatBE (natToBytesBE len n) = n := by
  intro len
  induction len with
  | zero =>
    intro n hn
    have h0 : n = 0 := by simpa using hn
    subst h0; rfl
  | succ k ih =>
    intro n hn
    have hM : 0 < 256 ^ k := pow_pos (by omega) _
    have hmod : n % 256 ^ k < 256 ^ k := Nat.mod_lt _ hM
    have hdiv : n / 256 ^ k < 256 := by
      rw [Nat.div_lt_iff_lt_mul hM]
      calc n < 256 ^ (k + 1) := hn
        _ = 256 * 256 ^ k := by ring
    have hstep : n / 256 ^ k % 256 = n / 256 ^ k := Nat.mod_eq_of_lt hdiv
    simp only [natToBytesBE, bytesToNatBE, List.foldl_cons]
    rw [hstep, bytesToNatBE_foldl_acc, natToBytesBE_length, ih _ hmod]
    calc (0 * 256 + n / 256 ^ k) * 256 ^ k + n % 256 ^ k
        = 256 ^ k * (n / 256 ^ k) + n % 256 ^ k := by ring
      _ = n := Nat.div_add_mod n (256 ^ k)

theorem natToBytesBE_bytesToNatBE :
    ∀ (l : Bytes), (∀ b ∈ l, b < 256) → natToBytesBE l.length (bytesToNatBE l) = l := by
  intro l
  induction l with
  | nil => intro _; rfl
  | cons b l2 ih =>
    intro h
    have hb : b < 256 := h b (by simp)
    have h2 : ∀ x ∈ l2, x < 256 := fun x hx => h x (by simp [hx])
    have hlt : bytesToNatBE l2 < 256 ^ l2.length := bytesToNatBE_lt l2 h2
    have hM : 0 < 256 ^ l2.length := pow_pos (by omega) _
    have hval : bytesToNatBE (b :: l2) = b * 256 ^ l2.length + bytesToNatBE l2 := by
      simp only [bytesToNatBE, List.foldl_cons]
      calc l2.foldl (fun a b => a * 256 + b) (0 * 256 + b)
          = (0 * 256 + b) * 256 ^ l2.length + bytesToNatBE l2 := bytesToNatBE_foldl_acc l2 _
        _ = b * 256 ^ l2.length + bytesToNatBE l2 := by ring
    have hd : (b * 256 ^ l2.length + bytesToNatBE l2) / 256 ^ l2.length = b := by
      rw [Nat.mul_comm b, Nat.mul_add_div hM, Nat.div_eq_of_lt hlt]
      omega
    have hm : (b * 256 ^ l2.length + bytesToNatBE l2) % 256 ^ l2.length = bytesToNatBE l2 := by
      rw [Nat.mul_comm b, Nat.mul_add_mod, Nat.mod_eq_of_lt hlt]
    simp only [List.length_cons, hval, natToBytesBE]
    rw [hd, hm, Nat.mod_eq_of_lt hb, ih h2]

set_option maxRecDepth 1000000 in
/-- Sanity: the SHA-1 implementation reproduces the digest of "abc". -/
theorem sha1Bytes_abc :
    sha1Bytes [0x61, 0x62, 0x63] =
      [0xa9, 0x99, 0x3e, 0x36, 0x47, 0x06, 0x81, 0x6a, 0xba, 0x3e,
       0x25, 0x71, 0x78, 0x50, 0xc2, 0x6c, 0x9c, 0xd0, 0xd8, 0x9d] := by
  decide

set_option maxRecDepth 1000000 in
/-- Sanity: the PBKDF2-HMAC-SHA1 implementation reproduces the RFC 6070
vector with one round (password "password", salt "salt"). -/
theorem pbkdf2Sha1_rfc6070_one_round :
    pbkdf2Sha1 [0x70, 0x61, 0x73, 0x73, 0x77, 0x6f, 0x72, 0x64] [0x73, 0x61, 0x6c, 0x74] 1 20 =
      [0x0c, 0x60, 0xc8, 0x0f, 0x96, 0x1f, 0x0e, 0x71, 0xf3, 0xa9,
       0xb5, 0x24, 0xaf, 0x60, 0x12, 0x06, 0x2f, 0xe0, 0x37, 0xa6] := by
  decide

set_option maxRecDepth 1000000 in
set_option maxHeartbeats 1000000 in
/-- Sanity: the PBKDF2-HMAC-SHA1 implementation reproduces the RFC 6070
vector with two rounds. -/
theorem pbkdf2Sha1_rfc6070_two_rounds :
    pbkdf2Sha1 [0x70, 0x61, 0x73, 0x73, 0x77, 0x6f, 0x72, 0x64] [0x73, 0x61, 0x6c, 0x74] 2 20 =
      [0xea, 0x6c, 0x01, 0x4d, 0xc7, 0x2d, 0x6f, 0x8c, 0xcd, 0x1e,
       0xd9, 0x2a, 0xce, 0x1d, 0x41, 0xf0, 0xd8, 0xde, 0x89, 0x57] := by
  decide

theorem eval_polyOfCoeffs (p : ℕ) :
    ∀ (l : List (ZMod p)) (x : ZMod p), (polyOfCoeffs p l).eval x = polyEval p l x := by
  intro l
  induction l with
  | nil => intro x; simp [polyOfCoeffs, polyEval]
  | cons c cs ih =>
    intro x
    simp only [polyOfCoeffs, Polynomial.eval_add, Polynomial.eval_mul, Polynomial.eval_C,
      Polynomial.eval_X, ih x]
    rfl

theorem polyEval_zero (p : ℕ) (l : List (ZMod p)) :
    polyEval p l 0 = l.headD 0 := by
  cases l with
  | nil => rfl
  | cons c cs => simp [polyEval]

theorem degree_polyOfCoeffs (p : ℕ) [Fact p.Prime] :
    ∀ (l : List (ZMod p)), (polyOfCoeffs p l).degree < (l.length : WithBot ℕ) := by
  intro l
  induction l with
  | nil =>
    simp only [polyOfCoeffs, Polynomial.degree_zero, List.length_nil, Nat.cast_zero]
    exact bot_lt_iff_ne_bot.mpr (by simp)
  | cons c cs ih =>
    have h1 : (1 : WithBot ℕ) ≠ ⊥ := by simp
    have hstep : (1 : WithBot ℕ) + (polyOfCoeffs p cs).degree < 1 + (cs.length : WithBot ℕ) :=
      WithBot.add_lt_add_left h1 ih
    have hone : (1 : WithBot ℕ) + (cs.length : WithBot ℕ) = ((cs.length + 1 : ℕ) : WithBot ℕ) := by
      push_cast
      exact add_comm 1 _
    have hX : (Polynomial.X * polyOfCoeffs p cs).degree < (((c :: cs).length : ℕ) : WithBot ℕ) := by
      apply lt_of_le_of_lt (Polynomial.degree_mul_le _ _)
      rw [Polynomial.degree_X, List.length_cons]
      calc (1 : WithBot ℕ) + (polyOfCoeffs p cs).degree
          < 1 + (cs.length : WithBot ℕ) := hstep
        _ = ((cs.length + 1 : ℕ) : WithBot ℕ) := hone
    have hC : (Polynomial.C c).degree < (((c :: cs).length : ℕ) : WithBot ℕ) := by
      apply lt_of_le_of_lt Polynomial.degree_C_le
      rw [List.length_cons]
      exact_mod_cast Nat.succ_pos cs.length
    have hadd : (polyOfCoeffs p (c :: cs)).degree ≤
        max (Polynomial.C c).degree (Polynomial.X * polyOfCoeffs p cs).degree := by
      simp only [polyOfCoeffs]
      exact Polynomial.degree_add_le _ _
    exact lt_of_le_of_lt hadd (max_lt hC hX)

/-- Interpolation correctness: for pairwise distinct nodes xs and any
polynomial P of degree below their number, the executable Lagrange
evaluation of the points (x, P(x)) returns P(x0). -/
theorem lagrangeEval_nodes (p : ℕ) [Fact p.Prime] (P : Polynomial (ZMod p)) (xs : List (ZMod p))
    (hnd : xs.Nodup) (hdeg : P.degree < (xs.length : WithBot ℕ)) (x0 : ZMod p) :
    lagrangeEval p (xs.map fun x => (x, P.eval x)) x0 = P.eval x0 := by
  classical
  have hcard : xs.toFinset.card = xs.length := List.toFinset_card_of_nodup hnd
  have hinj : Set.InjOn id (xs.toFinset : Set (ZMod p)) := fun a _ b _ h => h
  have hP : P = Lagrange.interpolate xs.toFinset id fun i => P.eval (id i) :=
    Lagrange.eq_interpolate hinj (by rwa [hcard])
  have heval : P.eval x0 =
      ∑ i ∈ xs.toFinset, P.eval i * (Lagrange.basis xs.toFinset id i).eval x0 := by
    conv_lhs => rw [hP]
    rw [Lagrange.interpolate_apply, Polynomial.eval_finset_sum]
    refine Finset.sum_congr rfl fun i _ => ?_
    rw [Polynomial.eval_mul, Polynomial.eval_C]
    rfl
  rw [heval, lagrangeEval]
  simp only [List.filter_map, List.map_map]
  rw [← List.sum_toFinset _ hnd]
  apply Finset.sum_congr rfl
  intro x hx
  simp only [Function.comp_def]
  have hfnd : (xs.filter fun y => decide (y ≠ x)).Nodup := hnd.filter _
  have hbasis : (Lagrange.basis xs.toFinset id x).eval x0 =
      ((xs.filter fun y => decide (y ≠ x)).map fun y => (x0 - y) * (x - y)⁻¹).prod := by
    rw [Lagrange.basis, Polynomial.eval_prod, ← List.prod_toFinset _ hfnd]
    have hset : (xs.filter fun y => decide (y ≠ x)).toFinset = xs.toFinset.erase x := by
      ext a
      simp [and_comm]
    rw [hset]
    apply Finset.prod_congr rfl
    intro j _
    simp [Lagrange.basisDivisor, mul_comm]
  rw [hbasis]

theorem constHkdf_length (d : Bytes) (n : Nat) : (constHkdf d n).length = n := by
  simp [constHkdf]

/-! ## Pad inversion -/

theorem setupPad_length (hkdfFn : Bytes → Nat → Bytes)
    (hlen : ∀ d n, (hkdfFn d n).length = n) (size : Nat) (s data : Bytes)
    (hsz : size ≤ s.length) : (setupPad hkdfFn size s data).length = s.length := by
  simp only [setupPad, xorBytes_length]
  split
  · simp [hlen]
    omega
  · simp [hlen]
    omega

/-- Derive inverts the setup pad: a callable producer returning material
of the slot type carrying the same factor data recovers the exact share
that setup blinded into the pad. -/
theorem processFactor_setupPad (hkdfFn : Bytes → Nat → Bytes)
    (hlen : ∀ d n, (hkdfFn d n).length = n) (size : Nat) (s data : Bytes)
    (hsz : size ≤ s.length) (fid ty : String) (hty : ty ≠ "persisted") (prm : P)
    (mp : Option (Bytes → P)) :
    processFactor hkdfFn size (PolicyFactor.mk fid ty (setupPad hkdfFn size s data) prm)
      (some (SuppliedEntry.callable (fun _ => FactorMaterial.mk ty data mp))) =
      Except.ok (some s, mp) := by
  have hpadlen : (setupPad hkdfFn size s data).length = s.length :=
    setupPad_length hkdfFn hlen size s data hsz
  have hkey : xorBytes (setupPad hkdfFn size s data)
      (if (setupPad hkdfFn size s data).length > size
        then List.replicate ((setupPad hkdfFn size s data).length - size) 0 ++ hkdfFn data size
        else hkdfFn data size) = s := by
    rw [hpadlen]
    simp only [setupPad]
    apply xorBytes_xorBytes_cancel
    split
    · rw [List.length_append, List.length_replicate, hlen]
      omega
    · rw [hlen]
      omega
  simp only [processFactor]
  rw [if_neg (by simpa using hty), if_neg (by simp)]
  rw [hkey]

/-- Claim C4: setup records pad = share xor stretched (stretched
left-padded with zeros when the share is longer than the key size), and
derive inverts this exactly, so identical factor data recovers the
identical share. -/
theorem pad_records_and_derive_inverts (hkdfFn : Bytes → Nat → Bytes)
    (hlen : ∀ d n, (hkdfFn d n).length = n) (size : Nat) (s data : Bytes)
    (hsz : size ≤ s.length) (fid ty : String) (hty : ty ≠ "persisted") (prm : P)
    (mp : Option (Bytes → P)) :
    setupPad hkdfFn size s data =
      xorBytes s (if s.length > size
        then List.replicate (s.length - size) 0 ++ hkdfFn data size
        else hkdfFn data size) ∧
    processFactor hkdfFn size (PolicyFactor.mk fid ty (setupPad hkdfFn size s data) prm)
      (some (SuppliedEntry.callable (fun _ => FactorMaterial.mk ty data mp))) =
      Except.ok (some s, mp) :=
  ⟨rfl, processFactor_setupPad hkdfFn hlen size s data hsz fid ty hty prm mp⟩

/-- Witness for C4 at concrete inputs. -/
theorem pad_records_and_derive_inverts_witness :
    (∀ d n, (constHkdf d n).length = n) ∧ 1 ≤ ([3, 7] : Bytes).length ∧
      ("password" : String) ≠ "persisted" ∧
      processFactor constHkdf 1
        (PolicyFactor.mk "a" "password" (setupPad constHkdf 1 [3, 7] [9]) ())
        (some (SuppliedEntry.callable (fun _ => FactorMaterial.mk "password" [9]
          (none : Option (Bytes → Unit))))) = Except.ok (some [3, 7], none) :=
  ⟨constHkdf_length, by decide, by decide,
    (pad_records_and_derive_inverts constHkdf constHkdf_length 1 [3, 7] [9] (by decide)
      "a" "password" (by decide) () none).2⟩

/-! ## Claim C3: persisted bypass and type mismatch -/

/-- Claim C3: a callable producer returning persisted material has its
data used directly as the share (no stretching, no type comparison, even
when the slot type differs); any other material whose type differs from
the slot type makes derive fail with FactorTypeMismatch. -/
theorem persisted_bypass_and_type_mismatch (hkdfFn : Bytes → Nat → Bytes) (size : Nat)
    (pf : PolicyFactor P) (producer : P → FactorMaterial P) :
    ((producer pf.params).type = "persisted" →
      processFactor hkdfFn size pf (some (SuppliedEntry.callable producer)) =
        Except.ok (some (producer pf.params).data, (producer pf.params).params)) ∧
    ((producer pf.params).type ≠ "persisted" → (producer pf.params).type ≠ pf.type →
      processFactor hkdfFn size pf (some (SuppliedEntry.callable producer)) =
        Except.error DeriveError.factorTypeMismatch) := by
  constructor
  · intro hp
    simp [processFactor, hp]
  · intro hp hm
    simp [processFactor, hp, hm]

/-- Witness for C3: the persisted branch on a slot of a different type,
and the mismatch branch, at concrete inputs. -/
theorem persisted_bypass_and_type_mismatch_witness :
    (("persisted" : String) = "persisted" ∧
      processFactor constHkdf 1 (PolicyFactor.mk "a" "uuid" [5] ())
        (some (SuppliedEntry.callable (fun _ => FactorMaterial.mk "persisted" [9]
          (none : Option (Bytes → Unit))))) = Except.ok (some [9], none)) ∧
    (("password" : String) ≠ "persisted" ∧ ("password" : String) ≠ "uuid" ∧
      processFactor constHkdf 1 (PolicyFactor.mk "a" "uuid" [5] ())
        (some (SuppliedEntry.callable (fun _ => FactorMaterial.mk "password" [9]
          (none : Option (Bytes → Unit))))) = Except.error DeriveError.factorTypeMismatch) :=
  ⟨⟨by decide,
    (persisted_bypass_and_type_mismatch constHkdf 1 (PolicyFactor.mk "a" "uuid" [5] ())
      (fun _ => FactorMaterial.mk "persisted" [9] none)).1 (by decide)⟩,
   ⟨by decide, by decide,
    (persisted_bypass_and_type_mismatch constHkdf 1 (PolicyFactor.mk "a" "uuid" [5] ())
      (fun _ => FactorMaterial.mk "password" [9] none)).2 (by decide) (by decide)⟩⟩

/-! ## Claim C10: hmacsha1 params reconstruct the secret -/

theorem xorBytes_comm (a b : Bytes) : xorBytes a b = xorBytes b a := by
  simp only [xorBytes]
  exact List.zipWith_comm_of_comm Nat.xor Nat.xor_comm a b

theorem hmacSha1_length (k m : Bytes) : (hmacSha1 k m).length = 20 := by
  simp [hmacSha1, sha1Bytes, natToBytesBE_length]

/-- Claim C10: for every key, the params stored by the hmacsha1 setup
factor satisfy pad xor (first 20 bytes of the HMAC response to the
challenge) = secret. -/
theorem hmacsha1_params_reconstruct (id : String) (secret challenge key : Bytes)
    (hid : id ≠ "") (hsec : secret.length = 20) :
    ∃ fac, hmacsha1Setup id secret challenge = Except.ok fac ∧
      xorBytes ((fac.params key).pad) ((hmacSha1 secret challenge).take 20) = secret := by
  refine ⟨MFKDFFactor.mk "hmacsha1" id secret 160
    (fun _key => HmacParams.mk challenge
      (xorBytes ((hmacSha1 secret challenge).take 20) secret))
    (HmacOutput.mk secret), ?_, ?_⟩
  · unfold hmacsha1Setup
    rw [if_neg hid, if_neg (by simp [hsec])]
  · show xorBytes (xorBytes ((hmacSha1 secret challenge).take 20) secret)
      ((hmacSha1 secret challenge).take 20) = secret
    rw [xorBytes_comm ((hmacSha1 secret challenge).take 20) secret]
    apply xorBytes_xorBytes_cancel
    rw [hsec, List.length_take, hmacSha1_length]
    omega

/-- Witness for C10 at a concrete secret, challenge and key. -/
theorem hmacsha1_params_reconstruct_witness :
    ("yubikey" : String) ≠ "" ∧ (List.replicate 20 7 : Bytes).length = 20 ∧
      ∃ fac, hmacsha1Setup "yubikey" (List.replicate 20 7) [1, 2] = Except.ok fac ∧
        xorBytes ((fac.params [9]).pad) ((hmacSha1 (List.replicate 20 7) [1, 2]).take 20) =
          List.replicate 20 7 :=
  ⟨by decide, by decide,
    hmacsha1_params_reconstruct "yubikey" (List.replicate 20 7) [1, 2] [9]
      (by decide) (by decide)⟩

/-! ## Unfolding lemmas for derive -/

theorem deriveKey_precheck_error (p : ℕ) [Fact p.Prime] (hkdfFn : Bytes → Nat → Bytes)
    (kdfFn : Bytes → Bytes → Nat → KdfSpec → Bytes) (policy : Policy P)
    (supplied : List (String × SuppliedEntry P)) (hsv : schemaValid policy)
    (hpre : supplied.length < policy.threshold) :
    deriveKey p hkdfFn kdfFn policy supplied = Except.error DeriveError.insufficientShares := by
  unfold deriveKey
  rw [if_neg (not_not_intro hsv), if_pos hpre]

theorem deriveKey_after_process (p : ℕ) [Fact p.Prime] (hkdfFn : Bytes → Nat → Bytes)
    (kdfFn : Bytes → Bytes → Nat → KdfSpec → Bytes) (policy : Policy P)
    (supplied : List (String × SuppliedEntry P)) (shares : List (Option Bytes))
    (nfs : List (Option (Bytes → P))) (hsv : schemaValid policy)
    (hpre : ¬ supplied.length < policy.threshold)
    (hpf : processFactors hkdfFn policy.size supplied policy.factors = Except.ok (shares, nfs)) :
    deriveKey p hkdfFn kdfFn policy supplied =
      if shares.countP (fun o => o.isSome) < policy.threshold then
        Except.error DeriveError.insufficientShares
      else
        Except.ok
          ⟨{ policy with factors := (rotateParams
              (kdfFn (combine p shares policy.threshold policy.factors.length policy.size)
                policy.salt policy.size policy.kdf) policy.factors nfs) },
            kdfFn (combine p shares policy.threshold policy.factors.length policy.size)
              policy.salt policy.size policy.kdf,
            combine p shares policy.threshold policy.factors.length policy.size,
            recoverShares p shares policy.threshold policy.factors.length policy.size,
            none, none⟩ := by
  unfold deriveKey
  rw [if_neg (not_not_intro hsv), if_neg hpre]
  split
  · rename_i e heq
    rw [hpf] at heq
    simp at heq
  · rename_i ss nn heq
    rw [hpf] at heq
    injection heq with h2
    cases h2
    rfl

/-! ## Claim C2: insufficient shares -/

/-- Claim C2: with a schema-valid policy, derive fails with
InsufficientShares when the supplied map has fewer than threshold
entries; it fails with InsufficientShares when the processed shares
contain fewer than threshold non-null entries; and with threshold minus
one supplied factors it always fails with this error. -/
theorem insufficient_shares_errors (p : ℕ) [Fact p.Prime] (hkdfFn : Bytes → Nat → Bytes)
    (kdfFn : Bytes → Bytes → Nat → KdfSpec → Bytes) (policy : Policy P)
    (supplied : List (String × SuppliedEntry P)) (hsv : schemaValid policy) :
    (supplied.length < policy.threshold →
      deriveKey p hkdfFn kdfFn policy supplied = Except.error DeriveError.insufficientShares) ∧
    (∀ shares nfs,
      processFactors hkdfFn policy.size supplied policy.factors = Except.ok (shares, nfs) →
      ¬ supplied.length < policy.threshold →
      shares.countP (fun o => o.isSome) < policy.threshold →
      deriveKey p hkdfFn kdfFn policy supplied = Except.error DeriveError.insufficientShares) ∧
    (supplied.length = policy.threshold - 1 →
      deriveKey p hkdfFn kdfFn policy supplied = Except.error DeriveError.insufficientShares) := by
  refine ⟨fun hpre => deriveKey_precheck_error p hkdfFn kdfFn policy supplied hsv hpre,
    fun shares nfs hpf hpre hcnt => ?_, fun hlen => ?_⟩
  · rw [deriveKey_after_process p hkdfFn kdfFn policy supplied shares nfs hsv hpre hpf,
      if_pos hcnt]
  · have ht : 0 < policy.threshold := hsv.2.1
    exact deriveKey_precheck_error p hkdfFn kdfFn policy supplied hsv (by omega)

/-- Witness for C2: an empty map fails the precheck, and a map with one
non-callable entry passes the precheck but fails at the non-null count. -/
theorem insufficient_shares_errors_witness :
    schemaValid polC2 ∧
    (([] : List (String × SuppliedEntry Unit)).length < polC2.threshold ∧
      deriveKey 257 constHkdf idKdf polC2 [] = Except.error DeriveError.insufficientShares) ∧
    (processFactors constHkdf polC2.size [("a", SuppliedEntry.notCallable)] polC2.factors =
        Except.ok ([none], [none]) ∧
      ¬ ([("a", SuppliedEntry.notCallable)] : List (String × SuppliedEntry Unit)).length <
          polC2.threshold ∧
      ([(none : Option Bytes)].countP (fun o => o.isSome)) < polC2.threshold ∧
      deriveKey 257 constHkdf idKdf polC2 [("a", SuppliedEntry.notCallable)] =
        Except.error DeriveError.insufficientShares) :=
  ⟨by decide,
   ⟨by decide,
    (insufficient_shares_errors 257 constHkdf idKdf polC2 [] (by decide)).1 (by decide)⟩,
   ⟨by rfl, by decide, by decide,
    (insufficient_shares_errors 257 constHkdf idKdf polC2
      [("a", SuppliedEntry.notCallable)] (by decide)).2.1 [none] [none] (by rfl)
      (by decide) (by decide)⟩⟩

/-! ## Claim C8: params rotation frame property -/

theorem processFactors_lengths (hkdfFn : Bytes → Nat → Bytes) (size : Nat)
    (supplied : List (String × SuppliedEntry P)) :
    ∀ (fl : List (PolicyFactor P)) (shares : List (Option Bytes))
      (nfs : List (Option (Bytes → P))),
      processFactors hkdfFn size supplied fl = Except.ok (shares, nfs) →
      shares.length = fl.length ∧ nfs.length = fl.length := by
  intro fl
  induction fl with
  | nil =>
    intro shares nfs h
    simp only [processFactors] at h
    injection h with h2
    cases h2
    exact ⟨rfl, rfl⟩
  | cons pf rest ih =>
    intro shares nfs h
    simp only [processFactors] at h
    rcases h1 : processFactor hkdfFn size pf (lookupFactor supplied pf.id) with e | sn
    · rw [h1] at h
      simp at h
    · rw [h1] at h
      obtain ⟨s, nf⟩ := sn
      rcases h2 : processFactors hkdfFn size supplied rest with e2 | ssnn
      · rw [h2] at h
        simp at h
      · rw [h2] at h
        obtain ⟨ss, nns⟩ := ssnn
        injection h with h3
        cases h3
        have := ih ss nns h2
        simp [List.length_cons]
        omega

theorem rotateParams_getElem_none (key : Bytes) :
    ∀ (fs : List (PolicyFactor P)) (nfs : List (Option (Bytes → P))) (i : ℕ),
      nfs.length = fs.length → nfs[i]? = some none →
      (rotateParams key fs nfs)[i]? = fs[i]? := by
  intro fs
  induction fs with
  | nil =>
    intro nfs i hlen h
    have : nfs = [] := List.eq_nil_of_length_eq_zero hlen
    subst this
    simp at h
  | cons pf rest ih =>
    intro nfs i hlen h
    cases nfs with
    | nil => simp at h
    | cons nf nfs2 =>
      cases i with
      | zero =>
        simp only [List.getElem?_cons_zero, Option.some.injEq] at h
        subst h
        simp [rotateParams]
      | succ j =>
        simp only [List.getElem?_cons_succ] at h ⊢
        simp only [rotateParams, List.zipWith_cons_cons, List.getElem?_cons_succ]
        exact ih nfs2 j (by simpa using hlen) h

theorem rotateParams_getElem_some (key : Bytes) :
    ∀ (fs : List (PolicyFactor P)) (nfs : List (Option (Bytes → P))) (i : ℕ)
      (f : Bytes → P),
      nfs.length = fs.length → nfs[i]? = some (some f) →
      (rotateParams key fs nfs)[i]?.map (fun pf => pf.params) =
        (fs[i]?).map (fun _ => f key) := by
  intro fs
  induction fs with
  | nil =>
    intro nfs i f hlen h
    have : nfs = [] := List.eq_nil_of_length_eq_zero hlen
    subst this
    simp at h
  | cons pf rest ih =>
    intro nfs i f hlen h
    cases nfs with
    | nil => simp at h
    | cons nf nfs2 =>
      cases i with
      | zero =>
        simp only [List.getElem?_cons_zero, Option.some.injEq] at h
        subst h
        simp [rotateParams]
      | succ j =>
        simp only [List.getElem?_cons_succ] at h ⊢
        simp only [rotateParams, List.zipWith_cons_cons, List.getElem?_cons_succ]
        exact ih nfs2 j f (by simpa using hlen) h

/-- Claim C8 (amended form is the original claim): on a successful
derivation, every slot whose producer did not yield a params callable
(including unsupplied slots) keeps the input policy params, and exactly
the slots with a callable are rewritten with the callable applied to the
derived key. -/
theorem rotation_frame (p : ℕ) [Fact p.Prime] (hkdfFn : Bytes → Nat → Bytes)
    (kdfFn : Bytes → Bytes → Nat → KdfSpec → Bytes) (policy : Policy P)
    (supplied : List (String × SuppliedEntry P)) (shares : List (Option Bytes))
    (nfs : List (Option (Bytes → P))) (hsv : schemaValid policy)
    (hpre : ¬ supplied.length < policy.threshold)
    (hpf : processFactors hkdfFn policy.size supplied policy.factors = Except.ok (shares, nfs))
    (hcnt : ¬ shares.countP (fun o => o.isSome) < policy.threshold) :
    ∃ D, deriveKey p hkdfFn kdfFn policy supplied = Except.ok D ∧
      ∀ i : ℕ,
        (nfs[i]? = some none →
          (D.policy.factors[i]?).map (fun pf => pf.params) =
            (policy.factors[i]?).map (fun pf => pf.params)) ∧
        (∀ f, nfs[i]? = some (some f) →
          (D.policy.factors[i]?).map (fun pf => pf.params) = some (f D.key)) := by
  have hlen := (processFactors_lengths hkdfFn policy.size supplied policy.factors
    shares nfs hpf).2
  refine ⟨_, by
    rw [deriveKey_after_process p hkdfFn kdfFn policy supplied shares nfs hsv hpre hpf,
      if_neg hcnt], ?_⟩
  intro i
  constructor
  · intro h
    show ((rotateParams _ policy.factors nfs)[i]?).map (fun pf => pf.params) = _
    rw [rotateParams_getElem_none _ policy.factors nfs i hlen h]
  · intro f h
    show ((rotateParams _ policy.factors nfs)[i]?).map (fun pf => pf.params) = _
    rw [rotateParams_getElem_some _ policy.factors nfs i f hlen h]
    have hi : i < nfs.length := by
      by_contra hge
      rw [List.getElem?_eq_none (by omega)] at h
      cases h
    have hif : i < policy.factors.length := by omega
    rw [List.getElem?_eq_getElem hif]
    rfl

/-- Witness for C8 with a static (non-rotating) producer for the single
slot. -/
theorem rotation_frame_witness :
    schemaValid polC8 ∧
    ¬ ([("a", SuppliedEntry.callable
        (fun _ => FactorMaterial.mk "password" [2] none))] :
        List (String × SuppliedEntry Unit)).length < polC8.threshold ∧
    processFactors constHkdf polC8.size
        [("a", SuppliedEntry.callable (fun _ => FactorMaterial.mk "password" [2] none))]
        polC8.factors = Except.ok ([some [5]], [none]) ∧
    ¬ ([some ([5] : Bytes)].countP (fun o => o.isSome)) < polC8.threshold ∧
    ∃ D, deriveKey 257 constHkdf idKdf polC8
        [("a", SuppliedEntry.callable (fun _ => FactorMaterial.mk "password" [2] none))] =
        Except.ok D ∧
      ∀ i : ℕ,
        (([(none : Option (Bytes → Unit))])[i]? = some none →
          (D.policy.factors[i]?).map (fun pf => pf.params) =
            (polC8.factors[i]?).map (fun pf => pf.params)) ∧
        (∀ f, ([(none : Option (Bytes → Unit))])[i]? = some (some f) →
          (D.policy.factors[i]?).map (fun pf => pf.params) = some (f D.key)) :=
  ⟨by decide, by decide, by rfl, by decide,
    rotation_frame 257 constHkdf idKdf polC8
      [("a", SuppliedEntry.callable (fun _ => FactorMaterial.mk "password" [2] none))]
      [some [5]] [none] (by decide) (by decide) (by rfl) (by decide)⟩

/-! ## Setup success unfolding -/

theorem setupKey_ok (p : ℕ) (hkdfFn : Bytes → Nat → Bytes)
    (kdfFn : Bytes → Bytes → Nat → KdfSpec → Bytes) (factors : List (MFKDFFactor P O))
    (opts : KeySetupOptions) (uuid : String) (randSalt secret : Bytes)
    (coeffs : List (ZMod p))
    (hne : ¬ factors.length = 0) (hid : ¬ opts.id.getD uuid = "")
    (hsz : ¬ opts.size = 0) (ht0 : ¬ opts.threshold.getD factors.length = 0)
    (ht1 : ¬ factors.length < opts.threshold.getD factors.length)
    (hfs : ∀ f ∈ factors, f.type ≠ "" ∧ f.id ≠ "" ∧ f.data ≠ [])
    (hnd : (factors.map (fun f => f.id)).Nodup) :
    setupKey p hkdfFn kdfFn factors opts uuid randSalt secret coeffs =
      Except.ok
        ⟨⟨opts.id.getD uuid, opts.size, opts.threshold.getD factors.length,
            opts.salt.getD randSalt, opts.kdf,
            List.zipWith
              (fun f s => PolicyFactor.mk f.id f.type (setupPad hkdfFn opts.size s f.data)
                (f.params (kdfFn secret (opts.salt.getD randSalt) opts.size opts.kdf)))
              factors (shamirShare p opts.size secret coeffs factors.length)⟩,
          kdfFn secret (opts.salt.getD randSalt) opts.size opts.kdf,
          secret,
          shamirShare p opts.size secret coeffs factors.length,
          some (factors.map (fun f => (f.id, f.output))),
          some ⟨((List.insertionSort (· ≤ ·)
              (factors.map (fun f => 8 * f.data.length))).take
                (opts.threshold.getD factors.length)).sum,
            ((List.insertionSort (· ≤ ·) (factors.map (fun f => f.entropy))).take
              (opts.threshold.getD factors.length)).sum⟩⟩ := by
  unfold setupKey
  rw [if_neg hne, if_neg hid, if_neg hsz, if_neg ht0, if_neg ht1,
    if_neg (not_not_intro hfs), if_neg (not_not_intro hnd)]

/-! ## Claim C6: entropy report -/

/-- Claim C6: the DerivedKey returned by setup reports
entropyBits.theoretical as the sum of the threshold smallest values of
8 * data length over the factors (ascending sort, first threshold, summed)
and entropyBits.real as the sum of the threshold smallest per-factor
entropy values. -/
theorem entropy_bits_report (p : ℕ) (hkdfFn : Bytes → Nat → Bytes)
    (kdfFn : Bytes → Bytes → Nat → KdfSpec → Bytes) (factors : List (MFKDFFactor P O))
    (opts : KeySetupOptions) (uuid : String) (randSalt secret : Bytes)
    (coeffs : List (ZMod p))
    (hne : ¬ factors.length = 0) (hid : ¬ opts.id.getD uuid = "")
    (hsz : ¬ opts.size = 0) (ht0 : ¬ opts.threshold.getD factors.length = 0)
    (ht1 : ¬ factors.length < opts.threshold.getD factors.length)
    (hfs : ∀ f ∈ factors, f.type ≠ "" ∧ f.id ≠ "" ∧ f.data ≠ [])
    (hnd : (factors.map (fun f => f.id)).Nodup) :
    ∃ K, setupKey p hkdfFn kdfFn factors opts uuid randSalt secret coeffs = Except.ok K ∧
      K.entropyBits =
        some ⟨((List.insertionSort (· ≤ ·)
            (factors.map (fun f => 8 * f.data.length))).take
              (opts.threshold.getD factors.length)).sum,
          ((List.insertionSort (· ≤ ·) (factors.map (fun f => f.entropy))).take
            (opts.threshold.getD factors.length)).sum⟩ :=
  ⟨_, setupKey_ok p hkdfFn kdfFn factors opts uuid randSalt secret coeffs
    hne hid hsz ht0 ht1 hfs hnd, rfl⟩

/-- Witness for C6 with two factors and threshold two. -/
theorem entropy_bits_report_witness :
    (¬ facsC6.length = 0) ∧ (¬ (some "k").getD "u" = "") ∧
    (¬ (16 : Nat) = 0) ∧
    (¬ (some 2 : Option Nat).getD facsC6.length = 0) ∧
    (¬ facsC6.length < (some 2 : Option Nat).getD facsC6.length) ∧
    (∀ f ∈ facsC6, f.type ≠ "" ∧ f.id ≠ "" ∧ f.data ≠ []) ∧
    (facsC6.map (fun f => f.id)).Nodup ∧
    ∃ K, setupKey 257 constHkdf idKdf facsC6
        { id := some "k", size := 16, threshold := some 2 } "u" [0] [9] [] =
        Except.ok K ∧
      K.entropyBits =
        some ⟨((List.insertionSort (· ≤ ·)
            (facsC6.map (fun f => 8 * f.data.length))).take
              ((some 2 : Option Nat).getD facsC6.length)).sum,
          ((List.insertionSort (· ≤ ·) (facsC6.map (fun f => f.entropy))).take
            ((some 2 : Option Nat).getD facsC6.length)).sum⟩ :=
  ⟨by decide, by decide, by decide, by decide, by decide, by decide, by decide,
    entropy_bits_report 257 constHkdf idKdf facsC6
      { id := some "k", size := 16, threshold := some 2 } "u" [0] [9] []
      (by decide) (by decide) (by decide) (by decide) (by decide) (by decide) (by decide)⟩

/-! ## Claim C5: setup validation -/

/-- Amended claim C5: setup fails with InvalidArgument exactly when the
validated conditions fail, which include (beyond the claim as written)
that the id option, when supplied (else the generated uuid), is a
non-empty string.  The params-callable condition of the claim holds by
typing in this model. -/
theorem setup_fails_unless (p : ℕ) (hkdfFn : Bytes → Nat → Bytes)
    (kdfFn : Bytes → Bytes → Nat → KdfSpec → Bytes) (factors : List (MFKDFFactor P O))
    (opts : KeySetupOptions) (uuid : String) (randSalt secret : Bytes)
    (coeffs : List (ZMod p)) :
    setupKey p hkdfFn kdfFn factors opts uuid randSalt secret coeffs =
        Except.error SetupError.invalidArgument ↔
      ¬ (factors ≠ [] ∧ (∀ f ∈ factors, f.type ≠ "" ∧ f.id ≠ "" ∧ f.data ≠ []) ∧
         (factors.map (fun f => f.id)).Nodup ∧ 0 < opts.size ∧
         0 < opts.threshold.getD factors.length ∧
         opts.threshold.getD factors.length ≤ factors.length ∧
         opts.id.getD uuid ≠ "") := by
  constructor
  · intro h hcond
    obtain ⟨c1, c2, c3, c4, c5, c6, c7⟩ := hcond
    rw [setupKey_ok p hkdfFn kdfFn factors opts uuid randSalt secret coeffs
      (by simpa using c1) c7 (by omega) (by omega) (by omega) c2 c3] at h
    cases h
  · intro hn
    simp only [setupKey]
    split_ifs with h1 h2 h3 h4 h5 h6 h7
    all_goals try rfl
    exfalso
    apply hn
    exact ⟨by simpa using h1, h6, h7, by omega, by omega, by omega, h2⟩

/-- Counterexample to C5 as written: every condition listed by the claim
holds (non-empty factor list with non-empty type, id and data, distinct
ids, positive size, threshold within bounds), yet setup fails with
InvalidArgument because the supplied id option is the empty string. -/
theorem setup_validation_counterexample :
    (facsC5 ≠ [] ∧ (∀ f ∈ facsC5, f.type ≠ "" ∧ f.id ≠ "" ∧ f.data ≠ []) ∧
      (facsC5.map (fun f => f.id)).Nodup ∧ 0 < (16 : Nat) ∧
      0 < (none : Option Nat).getD facsC5.length ∧
      (none : Option Nat).getD facsC5.length ≤ facsC5.length) ∧
    setupKey 257 constHkdf idKdf facsC5 { id := some "", size := 16 } "u" [0] [9]
      ([] : List (ZMod 257)) = Except.error SetupError.invalidArgument :=
  ⟨⟨by simp [facsC5], by decide, by decide, by decide, by decide, by decide⟩, by rfl⟩

/-! ## Claim C9: non-callable entries -/

theorem lookupFactor_cons (e : String × SuppliedEntry P)
    (rest : List (String × SuppliedEntry P)) (id : String) :
    lookupFactor (e :: rest) id = if e.1 = id then some e.2 else lookupFactor rest id := by
  by_cases h : e.1 = id
  · rw [if_pos h]
    simp [lookupFactor, List.find?_cons_of_pos, h]
  · rw [if_neg h]
    simp only [lookupFactor, List.find?]
    rw [show (decide (e.1 = id)) = false by simp [h]]

theorem processFactor_isSome (hkdfFn : Bytes → Nat → Bytes) (size : Nat)
    (pf : PolicyFactor P) (entry : Option (SuppliedEntry P)) (s : Option Bytes)
    (nf : Option (Bytes → P))
    (h : processFactor hkdfFn size pf entry = Except.ok (s, nf)) :
    s.isSome = entryIsCallableOpt entry := by
  match entry with
  | none =>
    simp only [processFactor] at h
    injection h with h2
    cases h2
    rfl
  | some SuppliedEntry.notCallable =>
    simp only [processFactor] at h
    injection h with h2
    cases h2
    rfl
  | some (SuppliedEntry.callable producer) =>
    simp only [processFactor] at h
    split_ifs at h
    all_goals injection h with h2
    all_goals cases h2
    all_goals rfl

theorem processFactors_count (hkdfFn : Bytes → Nat → Bytes) (size : Nat)
    (supplied : List (String × SuppliedEntry P)) :
    ∀ (fl : List (PolicyFactor P)) (shares : List (Option Bytes))
      (nfs : List (Option (Bytes → P))),
      processFactors hkdfFn size supplied fl = Except.ok (shares, nfs) →
      shares.countP (fun o => o.isSome) =
        fl.countP (fun pf => lookupCallable supplied pf.id) := by
  intro fl
  induction fl with
  | nil =>
    intro shares nfs h
    simp only [processFactors] at h
    injection h with h2
    cases h2
    rfl
  | cons pf rest ih =>
    intro shares nfs h
    simp only [processFactors] at h
    rcases h1 : processFactor hkdfFn size pf (lookupFactor supplied pf.id) with e | sn
    · rw [h1] at h
      simp at h
    · rw [h1] at h
      obtain ⟨s, nf⟩ := sn
      rcases h2 : processFactors hkdfFn size supplied rest with e2 | ssnn
      · rw [h2] at h
        simp at h
      · rw [h2] at h
        obtain ⟨ss, nns⟩ := ssnn
        injection h with h3
        cases h3
        have hhead := processFactor_isSome hkdfFn size pf (lookupFactor supplied pf.id) s nf h1
        have htail := ih ss nns h2
        rw [List.countP_cons, List.countP_cons, htail, hhead]
        rfl

theorem countP_lookupCallable_le :
    ∀ (supplied : List (String × SuppliedEntry P)) (ids : List String), ids.Nodup →
      ids.countP (fun id => lookupCallable supplied id) ≤
        supplied.countP (fun e => e.2.isCallable) := by
  intro supplied
  induction supplied with
  | nil =>
    intro ids _
    have hz : ids.countP (fun id => lookupCallable ([] : List (String × SuppliedEntry P)) id) = 0 := by
      apply List.countP_eq_zero.mpr
      intro id _
      simp [lookupCallable, lookupFactor, entryIsCallableOpt]
    rw [hz]
    exact Nat.zero_le _
  | cons e rest ih =>
    intro ids hnd
    by_cases hmem : e.1 ∈ ids
    · have hperm : ids.Perm (e.1 :: ids.erase e.1) := List.perm_cons_erase hmem
      rw [hperm.countP_eq, List.countP_cons]
      have h1 : lookupCallable (e :: rest) e.1 = e.2.isCallable := by
        rw [lookupCallable, lookupFactor_cons, if_pos rfl]
        cases h : e.2 <;> rfl
      have h2 : (ids.erase e.1).countP (fun id => lookupCallable (e :: rest) id) =
          (ids.erase e.1).countP (fun id => lookupCallable rest id) := by
        apply List.countP_congr
        intro id hid
        have hne : id ≠ e.1 := ((List.Nodup.mem_erase_iff hnd).mp hid).1
        rw [lookupCallable, lookupCallable, lookupFactor_cons, if_neg (fun h => hne h.symm)]
      rw [h2, List.countP_cons, h1]
      have h3 := ih (ids.erase e.1) (hnd.erase e.1)
      omega
    · have h2 : ids.countP (fun id => lookupCallable (e :: rest) id) =
          ids.countP (fun id => lookupCallable rest id) := by
        apply List.countP_congr
        intro id hid
        have hne : id ≠ e.1 := fun h => hmem (h ▸ hid)
        rw [lookupCallable, lookupCallable, lookupFactor_cons, if_neg (fun h => hne h.symm)]
      rw [h2, List.countP_cons]
      have h3 := ih ids hnd
      omega

/-- Amended claim C9: a non-callable entry is processed exactly like an
absent factor; a map with at least threshold entries of which fewer than
threshold are callable passes the precheck, and, provided the factor loop
completes (no earlier FactorTypeMismatch) and the policy factor ids are
distinct, derive then fails with InsufficientShares at the non-null-share
count. -/
theorem notcallable_like_absent (p : ℕ) [Fact p.Prime] (hkdfFn : Bytes → Nat → Bytes)
    (kdfFn : Bytes → Bytes → Nat → KdfSpec → Bytes) (policy : Policy P)
    (supplied : List (String × SuppliedEntry P)) (hsv : schemaValid policy)
    (hnd : (policy.factors.map (fun pf => pf.id)).Nodup)
    (hpre : ¬ supplied.length < policy.threshold)
    (hcall : supplied.countP (fun e => e.2.isCallable) < policy.threshold) :
    (∀ pf : PolicyFactor P,
      processFactor hkdfFn policy.size pf (some SuppliedEntry.notCallable) =
        processFactor hkdfFn policy.size pf none) ∧
    (∀ shares nfs,
      processFactors hkdfFn policy.size supplied policy.factors = Except.ok (shares, nfs) →
      deriveKey p hkdfFn kdfFn policy supplied = Except.error DeriveError.insufficientShares) := by
  refine ⟨fun pf => rfl, fun shares nfs hpf => ?_⟩
  have hcount := processFactors_count hkdfFn policy.size supplied policy.factors shares nfs hpf
  have hle : policy.factors.countP (fun pf => lookupCallable supplied pf.id) ≤
      supplied.countP (fun e => e.2.isCallable) := by
    have hmap := countP_lookupCallable_le supplied (policy.factors.map (fun pf => pf.id)) hnd
    rwa [List.countP_map] at hmap
  rw [deriveKey_after_process p hkdfFn kdfFn policy supplied shares nfs hsv hpre hpf,
    if_pos (by omega)]

/-- Witness for C9: two non-callable entries pass the precheck and lead
to InsufficientShares. -/
theorem notcallable_like_absent_witness :
    schemaValid polC9 ∧
    (polC9.factors.map (fun pf => pf.id)).Nodup ∧
    ¬ ([("a", SuppliedEntry.notCallable), ("b", SuppliedEntry.notCallable)] :
        List (String × SuppliedEntry Unit)).length < polC9.threshold ∧
    ([("a", SuppliedEntry.notCallable), ("b", SuppliedEntry.notCallable)] :
        List (String × SuppliedEntry Unit)).countP (fun e => e.2.isCallable) <
      polC9.threshold ∧
    processFactors constHkdf polC9.size
        [("a", SuppliedEntry.notCallable), ("b", SuppliedEntry.notCallable)] polC9.factors =
      Except.ok ([none, none], [none, none]) ∧
    deriveKey 257 constHkdf idKdf polC9
        [("a", SuppliedEntry.notCallable), ("b", SuppliedEntry.notCallable)] =
      Except.error DeriveError.insufficientShares :=
  ⟨by decide, by decide, by decide, by decide, by rfl,
    (notcallable_like_absent 257 constHkdf idKdf polC9
      [("a", SuppliedEntry.notCallable), ("b", SuppliedEntry.notCallable)]
      (by decide) (by decide) (by decide) (by decide)).2 [none, none] [none, none] (by rfl)⟩

/-- Counterexample to C9 as written: a map with threshold entries of
which fewer than threshold are callable, where the single callable
producer returns material of the wrong type; derive fails with
FactorTypeMismatch, not InsufficientShares. -/
theorem notcallable_counterexample :
    ¬ ([("a", SuppliedEntry.callable (fun _ => FactorMaterial.mk "uuid" [2] none)),
        ("b", SuppliedEntry.notCallable)] :
        List (String × SuppliedEntry Unit)).length < polC9.threshold ∧
    ([("a", SuppliedEntry.callable (fun _ => FactorMaterial.mk "uuid" [2] none)),
        ("b", SuppliedEntry.notCallable)] :
        List (String × SuppliedEntry Unit)).countP (fun e => e.2.isCallable) <
      polC9.threshold ∧
    deriveKey 257 constHkdf idKdf polC9
        [("a", SuppliedEntry.callable (fun _ => FactorMaterial.mk "uuid" [2] none)),
          ("b", SuppliedEntry.notCallable)] =
      Except.error DeriveError.factorTypeMismatch ∧
    DeriveError.factorTypeMismatch ≠ DeriveError.insufficientShares :=
  ⟨by decide, by decide, by rfl, by decide⟩

/-! ## Claim C1: setup / derive round trip -/

theorem shamirShare_eq_range1 (p : ℕ) (size : Nat) (secret : Bytes)
    (coeffs : List (ZMod p)) (n : Nat) :
    shamirShare p size secret coeffs n =
      (List.range' 1 n).map (fun x =>
        natToBytesBE (size + 1)
          (polyEval p (((bytesToNatBE secret : ℕ) : ZMod p) :: coeffs) ((x : ℕ) : ZMod p)).val) := by
  rw [shamirShare, List.range'_eq_map_range, List.map_map]
  apply List.map_congr_left
  intro i _
  simp [Nat.add_comm]

theorem lookup_sub_map (sub factors : List (MFKDFFactor P O))
    (hnd : (factors.map (fun f => f.id)).Nodup) (hsub : sub.Sublist factors) :
    ∀ f ∈ factors,
      lookupFactor (sub.map (fun g =>
          (g.id, SuppliedEntry.callable (fun _ => FactorMaterial.mk g.type g.data none)))) f.id =
        if f.id ∈ sub.map (fun g => g.id) then
          some (SuppliedEntry.callable
            (fun (_ : P) => FactorMaterial.mk f.type f.data none))
        else none := by
  induction sub with
  | nil => intro f _; simp [lookupFactor]
  | cons g sub2 ih =>
    intro f hf
    have hg : g ∈ factors := hsub.subset (by simp)
    have hsub2 : sub2.Sublist factors := (List.sublist_cons_self g sub2).trans hsub
    by_cases heq : g.id = f.id
    · have hgf : g = f :=
        List.inj_on_of_nodup_map hnd hg hf heq
      subst hgf
      rw [List.map_cons, lookupFactor_cons, if_pos rfl]
      rw [List.map_cons, if_pos (by simp)]
    · rw [List.map_cons, lookupFactor_cons, if_neg heq]
      rw [ih hsub2 f hf]
      rw [List.map_cons]
      by_cases hmem : f.id ∈ sub2.map (fun g => g.id)
      · rw [if_pos hmem, if_pos (by simp [hmem])]
      · rw [if_neg hmem, if_neg (by
          simp only [List.mem_cons, not_or]
          exact ⟨fun h => heq h.symm, hmem⟩)]

theorem countP_mem_sublist :
    ∀ (L sub : List String), L.Nodup → sub.Sublist L →
      L.countP (fun a => decide (a ∈ sub)) = sub.length := by
  intro L
  induction L with
  | nil =>
    intro sub _ hsub
    rw [List.sublist_nil.mp hsub]
    rfl
  | cons a L2 ih =>
    intro sub hnd hsub
    have hndL2 : L2.Nodup := hnd.of_cons
    have haL2 : a ∉ L2 := (List.nodup_cons.mp hnd).1
    cases hsub with
    | cons _ hsub2 =>
      have hasub : a ∉ sub := fun ha => haL2 (hsub2.subset ha)
      rw [List.countP_cons, ih sub hndL2 hsub2]
      simp [hasub]
    | cons₂ _ hsub2 =>
      rename_i sub2
      have hcongr : L2.countP (fun x => decide (x ∈ a :: sub2)) =
          L2.countP (fun x => decide (x ∈ sub2)) := by
        apply List.countP_congr
        intro x hx
        have hxa : x ≠ a := fun h => haL2 (h ▸ hx)
        simp [hxa]
      rw [List.countP_cons, hcongr, ih sub2 hndL2 hsub2]
      simp

theorem processFactors_cons_ok (hkdfFn : Bytes → Nat → Bytes) (size : Nat)
    (m : List (String × SuppliedEntry P)) (pf : PolicyFactor P)
    (rest : List (PolicyFactor P)) (s : Option Bytes) (nf : Option (Bytes → P))
    (ss : List (Option Bytes)) (nfs : List (Option (Bytes → P)))
    (h1 : processFactor hkdfFn size pf (lookupFactor m pf.id) = Except.ok (s, nf))
    (h2 : processFactors hkdfFn size m rest = Except.ok (ss, nfs)) :
    processFactors hkdfFn size m (pf :: rest) = Except.ok (s :: ss, nf :: nfs) := by
  simp only [processFactors]
  rw [h1, h2]

theorem derive_loop_shape (p : ℕ) [Fact p.Prime] (hkdfFn : Bytes → Nat → Bytes)
    (hlen : ∀ d n, (hkdfFn d n).length = n) (size : Nat)
    (m : List (String × SuppliedEntry P)) (subIds : List String) (val : ℕ → ZMod p)
    (hval : ∀ x, (val x).val < 256 ^ (size + 1)) (prm : MFKDFFactor P O → P) :
    ∀ (fl : List (MFKDFFactor P O)) (k : ℕ),
      (∀ f ∈ fl, f.type ≠ "persisted") →
      (∀ f ∈ fl, lookupFactor m f.id =
        if f.id ∈ subIds then
          some (SuppliedEntry.callable
            (fun (_ : P) => FactorMaterial.mk f.type f.data none))
        else none) →
      ∃ (shares : List (Option Bytes)) (idxs : List ℕ),
        processFactors hkdfFn size m
          (List.zipWith
            (fun f s => PolicyFactor.mk f.id f.type (setupPad hkdfFn size s f.data) (prm f))
            fl ((List.range' (k + 1) fl.length).map
              (fun x => natToBytesBE (size + 1) (val x).val))) =
          Except.ok (shares, List.replicate fl.length none) ∧
        shares.countP (fun o => o.isSome) =
          fl.countP (fun f => decide (f.id ∈ subIds)) ∧
        (List.enumFrom k shares).filterMap
          (fun q => q.2.map (fun bts =>
            (((q.1 + 1 : ℕ) : ZMod p), ((bytesToNatBE bts : ℕ) : ZMod p)))) =
          idxs.map (fun x => (((x : ℕ) : ZMod p), val x)) ∧
        idxs.Pairwise (· < ·) ∧ (∀ x ∈ idxs, k + 1 ≤ x ∧ x ≤ k + fl.length) ∧
        idxs.length = fl.countP (fun f => decide (f.id ∈ subIds)) := by
  intro fl
  induction fl with
  | nil =>
    intro k _ _
    exact ⟨[], [], rfl, rfl, rfl, List.Pairwise.nil, by simp, rfl⟩
  | cons f fl2 ih =>
    intro k hper hlook
    obtain ⟨shares2, idxs2, hpf2, hcnt2, hsel2, hpw2, hbd2, hlen2⟩ :=
      ih (k + 1) (fun g hg => hper g (by simp [hg])) (fun g hg => hlook g (by simp [hg]))
    have hzip : List.zipWith
        (fun f s => PolicyFactor.mk f.id f.type (setupPad hkdfFn size s f.data) (prm f))
        (f :: fl2) ((List.range' (k + 1) (f :: fl2).length).map
          (fun x => natToBytesBE (size + 1) (val x).val)) =
        PolicyFactor.mk f.id f.type
            (setupPad hkdfFn size (natToBytesBE (size + 1) (val (k + 1)).val) f.data)
            (prm f) ::
          List.zipWith
            (fun f s => PolicyFactor.mk f.id f.type (setupPad hkdfFn size s f.data) (prm f))
            fl2 ((List.range' (k + 2) fl2.length).map
              (fun x => natToBytesBE (size + 1) (val x).val)) := by
      rw [List.length_cons, List.range'_succ, List.map_cons, List.zipWith_cons_cons]
    have hty : f.type ≠ "persisted" := hper f (by simp)
    by_cases hmem : f.id ∈ subIds
    · -- supplied slot: the share is recovered exactly
      have hhead : processFactor hkdfFn size
          (PolicyFactor.mk f.id f.type
            (setupPad hkdfFn size (natToBytesBE (size + 1) (val (k + 1)).val) f.data)
            (prm f))
          (lookupFactor m f.id) =
          Except.ok (some (natToBytesBE (size + 1) (val (k + 1)).val), none) := by
        rw [hlook f (by simp), if_pos hmem]
        exact processFactor_setupPad hkdfFn hlen size _ f.data
          (by rw [natToBytesBE_length]; omega) f.id f.type hty (prm f) none
      refine ⟨some (natToBytesBE (size + 1) (val (k + 1)).val) :: shares2,
        (k + 1) :: idxs2, ?_, ?_, ?_, ?_, ?_, ?_⟩
      · rw [hzip, List.length_cons, List.replicate_succ]
        exact processFactors_cons_ok hkdfFn size m _ _ _ _ _ _ hhead hpf2
      · rw [List.countP_cons, List.countP_cons, hcnt2]
        simp [hmem]
      · rw [List.enumFrom_cons]
        simp only [List.filterMap_cons, Option.map_some']
        rw [bytesToNatBE_natToBytesBE _ _ (hval (k + 1)),
          ZMod.natCast_rightInverse (val (k + 1)), hsel2, List.map_cons]
      · rw [List.pairwise_cons]
        exact ⟨fun x hx => by have := hbd2 x hx; omega, hpw2⟩
      · intro x hx
        rcases List.mem_cons.mp hx with h | h
        · subst h
          simp only [List.length_cons]
          omega
        · have := hbd2 x h
          simp only [List.length_cons]
          omega
      · rw [List.length_cons, List.countP_cons, hlen2]
        simp [hmem]
    · -- absent slot: null share
      have hhead : processFactor hkdfFn size
          (PolicyFactor.mk f.id f.type
            (setupPad hkdfFn size (natToBytesBE (size + 1) (val (k + 1)).val) f.data)
            (prm f))
          (lookupFactor m f.id) = Except.ok (none, none) := by
        rw [hlook f (by simp), if_neg hmem]
        rfl
      refine ⟨none :: shares2, idxs2, ?_, ?_, ?_, hpw2, ?_, ?_⟩
      · rw [hzip, List.length_cons, List.replicate_succ]
        exact processFactors_cons_ok hkdfFn size m _ _ _ _ _ _ hhead hpf2
      · rw [List.countP_cons, List.countP_cons, hcnt2]
        simp [hmem]
      · rw [List.enumFrom_cons, List.filterMap_cons_none (by simp)]
        exact hsel2
      · intro x hx
        have := hbd2 x hx
        simp only [List.length_cons]
        omega
      · rw [List.countP_cons, hlen2]
        simp [hmem]

/-- Amended claim C1: for every factor list with unique ids, none of the
reserved type "persisted", every valid options, well-formed randomness, a
field large enough for the key size, and every at-least-threshold-sized
sublist of the factors supplied on the derive side with identical data,
deriving from the setup policy returns a key byte-for-byte equal to the
setup key. -/
theorem setup_derive_roundtrip (p : ℕ) [Fact p.Prime] (hkdfFn : Bytes → Nat → Bytes)
    (kdfFn : Bytes → Bytes → Nat → KdfSpec → Bytes)
    (hlen : ∀ d n, (hkdfFn d n).length = n)
    (factors : List (MFKDFFactor P O)) (opts : KeySetupOptions) (uuid : String)
    (randSalt secret : Bytes) (coeffs : List (ZMod p)) (sub : List (MFKDFFactor P O))
    (hne : ¬ factors.length = 0)
    (hid : ¬ opts.id.getD uuid = "")
    (hsz : ¬ opts.size = 0)
    (ht0 : ¬ opts.threshold.getD factors.length = 0)
    (ht1 : ¬ factors.length < opts.threshold.getD factors.length)
    (hfs : ∀ f ∈ factors, f.type ≠ "" ∧ f.id ≠ "" ∧ f.data ≠ [])
    (hnp : ∀ f ∈ factors, f.type ≠ "persisted")
    (hnd : (factors.map (fun f => f.id)).Nodup)
    (hseclen : secret.length = opts.size)
    (hseclt : ∀ b ∈ secret, b < 256)
    (hcoeff : coeffs.length = opts.threshold.getD factors.length - 1)
    (hp1 : 256 ^ opts.size ≤ p)
    (hp2 : p ≤ 256 ^ (opts.size + 1))
    (hn : factors.length < p)
    (hsub : sub.Sublist factors)
    (hsublen : opts.threshold.getD factors.length ≤ sub.length) :
    ∃ K D,
      setupKey p hkdfFn kdfFn factors opts uuid randSalt secret coeffs = Except.ok K ∧
      deriveKey p hkdfFn kdfFn K.policy
        (sub.map (fun g =>
          (g.id, SuppliedEntry.callable
            (fun _ => FactorMaterial.mk g.type g.data none)))) = Except.ok D ∧
      D.key = K.key := by
  have hK := setupKey_ok p hkdfFn kdfFn factors opts uuid randSalt secret coeffs
    hne hid hsz ht0 ht1 hfs hnd
  -- abbreviations
  have hvalx : ∀ x : ℕ,
      (polyEval p (((bytesToNatBE secret : ℕ) : ZMod p) :: coeffs) ((x : ℕ) : ZMod p)).val <
        256 ^ (opts.size + 1) :=
    fun x => lt_of_lt_of_le (ZMod.val_lt _) hp2
  obtain ⟨shares, idxs, hpf, hcnt, hsel, hpw, hbd, hidxlen⟩ :=
    derive_loop_shape p hkdfFn hlen opts.size
      (sub.map (fun g =>
        (g.id, SuppliedEntry.callable (fun _ => FactorMaterial.mk g.type g.data none))))
      (sub.map (fun g => g.id))
      (fun x => polyEval p (((bytesToNatBE secret : ℕ) : ZMod p) :: coeffs) ((x : ℕ) : ZMod p))
      hvalx (fun f => f.params (kdfFn secret (opts.salt.getD randSalt) opts.size opts.kdf))
      factors 0 hnp (lookup_sub_map sub factors hnd hsub)
  have hcountSub : factors.countP (fun f => decide (f.id ∈ sub.map (fun g => g.id))) =
      sub.length := by
    have h1 : (factors.map (fun f => f.id)).countP
        (fun a => decide (a ∈ sub.map (fun g => g.id))) =
        (sub.map (fun g => g.id)).length :=
      countP_mem_sublist (factors.map (fun f => f.id)) (sub.map (fun g => g.id)) hnd
        (hsub.map (fun f => f.id))
    rw [List.countP_map] at h1
    rw [show (factors.countP (fun f => decide (f.id ∈ sub.map (fun g => g.id)))) =
        (factors.countP ((fun a => decide (a ∈ sub.map (fun g => g.id))) ∘ (fun f => f.id)))
      from rfl]
    rw [h1, List.length_map]
  -- the shares from the factor loop coincide with setup policy factors
  have hpf2 : processFactors hkdfFn opts.size
      (sub.map (fun g =>
        (g.id, SuppliedEntry.callable (fun _ => FactorMaterial.mk g.type g.data none))))
      (List.zipWith
        (fun f s => PolicyFactor.mk f.id f.type (setupPad hkdfFn opts.size s f.data)
          (f.params (kdfFn secret (opts.salt.getD randSalt) opts.size opts.kdf)))
        factors (shamirShare p opts.size secret coeffs factors.length)) =
      Except.ok (shares, List.replicate factors.length none) := by
    rw [shamirShare_eq_range1]
    exact hpf
  have hcnt2 : shares.countP (fun o => o.isSome) = sub.length := by
    rw [hcnt, hcountSub]
  have hidxlen2 : idxs.length = sub.length := by rw [hidxlen, hcountSub]
  -- the combined secret equals the setup secret
  have hcombine : combine p shares (opts.threshold.getD factors.length)
      (List.zipWith
        (fun f s => PolicyFactor.mk f.id f.type (setupPad hkdfFn opts.size s f.data)
          (f.params (kdfFn secret (opts.salt.getD randSalt) opts.size opts.kdf)))
        factors (shamirShare p opts.size secret coeffs factors.length)).length
      opts.size = secret := by
    rw [combine, selectPoints]
    have henum : shares.enum = List.enumFrom 0 shares := rfl
    rw [henum, hsel]
    set t := opts.threshold.getD factors.length with hteq
    have hmaptake : (idxs.map (fun x => (((x : ℕ) : ZMod p),
        polyEval p (((bytesToNatBE secret : ℕ) : ZMod p) :: coeffs) ((x : ℕ) : ZMod p)))).take t =
        (idxs.take t).map (fun x => (((x : ℕ) : ZMod p),
          polyEval p (((bytesToNatBE secret : ℕ) : ZMod p) :: coeffs) ((x : ℕ) : ZMod p))) :=
      (List.map_take _ _ _).symm
    rw [hmaptake]
    have hlenT : (idxs.take t).length = t := by
      rw [List.length_take]
      omega
    have hbdT : ∀ x ∈ idxs.take t, 1 ≤ x ∧ x ≤ factors.length :=
      fun x hx => by simpa using hbd x (List.mem_of_mem_take hx)
    have hpwT : (idxs.take t).Pairwise (· < ·) :=
      hpw.sublist (List.take_sublist t idxs)
    have hmapeq : (idxs.take t).map (fun x => (((x : ℕ) : ZMod p),
        polyEval p (((bytesToNatBE secret : ℕ) : ZMod p) :: coeffs) ((x : ℕ) : ZMod p))) =
        ((idxs.take t).map (fun x => ((x : ℕ) : ZMod p))).map
          (fun c => (c, (polyOfCoeffs p (((bytesToNatBE secret : ℕ) : ZMod p) :: coeffs)).eval c)) := by
      rw [List.map_map]
      apply List.map_congr_left
      intro x _
      simp only [Function.comp]
      rw [eval_polyOfCoeffs]
    rw [hmapeq]
    have hpairNe : (idxs.take t).Pairwise
        (fun a b => ((a : ℕ) : ZMod p) ≠ ((b : ℕ) : ZMod p)) := by
      refine hpwT.imp_of_mem ?_
      intro a b ha hb hlt hcast
      have hap : a < p := lt_of_le_of_lt (hbdT a ha).2 hn
      have hbp : b < p := lt_of_le_of_lt (hbdT b hb).2 hn
      have hv := congrArg ZMod.val hcast
      rw [ZMod.val_cast_of_lt hap, ZMod.val_cast_of_lt hbp] at hv
      omega
    have hnodup : ((idxs.take t).map (fun x => ((x : ℕ) : ZMod p))).Nodup :=
      List.Pairwise.map _ (fun a b h => h) hpairNe
    have hdeg : (polyOfCoeffs p (((bytesToNatBE secret : ℕ) : ZMod p) :: coeffs)).degree <
        ((((idxs.take t).map (fun x => ((x : ℕ) : ZMod p))).length : ℕ) : WithBot ℕ) := by
      have h1 := degree_polyOfCoeffs p (((bytesToNatBE secret : ℕ) : ZMod p) :: coeffs)
      have h2 : (((bytesToNatBE secret : ℕ) : ZMod p) :: coeffs).length = t := by
        simp only [List.length_cons, hcoeff]
        omega
      rw [h2] at h1
      rw [List.length_map, hlenT]
      exact h1
    have hlag := lagrangeEval_nodes p
      (polyOfCoeffs p (((bytesToNatBE secret : ℕ) : ZMod p) :: coeffs))
      ((idxs.take t).map (fun x => ((x : ℕ) : ZMod p))) hnodup hdeg 0
    rw [hlag, eval_polyOfCoeffs, polyEval_zero]
    show natToBytesBE opts.size ((((bytesToNatBE secret : ℕ) : ZMod p)).val) = secret
    have hsecbound : bytesToNatBE secret < 256 ^ opts.size := by
      have := bytesToNatBE_lt secret hseclt
      rwa [hseclen] at this
    rw [ZMod.val_cast_of_lt (lt_of_lt_of_le hsecbound hp1)]
    rw [← hseclen]
    exact natToBytesBE_bytesToNatBE secret hseclt
  -- assemble the derivation
  have hsv : schemaValid
      (Policy.mk (opts.id.getD uuid) opts.size (opts.threshold.getD factors.length)
        (opts.salt.getD randSalt) opts.kdf
        (List.zipWith
          (fun f s => PolicyFactor.mk f.id f.type (setupPad hkdfFn opts.size s f.data)
            (f.params (kdfFn secret (opts.salt.getD randSalt) opts.size opts.kdf)))
          factors (shamirShare p opts.size secret coeffs factors.length))) :=
    ⟨by show 0 < opts.size; omega,
     by show 0 < opts.threshold.getD factors.length; omega, hid⟩
  have hpre : ¬ (sub.map (fun g =>
      (g.id, SuppliedEntry.callable
        (fun (_ : P) => FactorMaterial.mk g.type g.data none)))).length <
      opts.threshold.getD factors.length := by
    rw [List.length_map]
    omega
  have hD := deriveKey_after_process p hkdfFn kdfFn
    (Policy.mk (opts.id.getD uuid) opts.size (opts.threshold.getD factors.length)
      (opts.salt.getD randSalt) opts.kdf
      (List.zipWith
        (fun f s => PolicyFactor.mk f.id f.type (setupPad hkdfFn opts.size s f.data)
          (f.params (kdfFn secret (opts.salt.getD randSalt) opts.size opts.kdf)))
        factors (shamirShare p opts.size secret coeffs factors.length)))
    (sub.map (fun g =>
      (g.id, SuppliedEntry.callable (fun _ => FactorMaterial.mk g.type g.data none))))
    shares (List.replicate factors.length none) hsv hpre hpf2
  rw [if_neg (by
    show ¬ shares.countP (fun o => o.isSome) < opts.threshold.getD factors.length
    omega)] at hD
  refine ⟨_, _, hK, hD, ?_⟩
  show kdfFn (combine p shares (opts.threshold.getD factors.length)
      (List.zipWith
        (fun f s => PolicyFactor.mk f.id f.type (setupPad hkdfFn opts.size s f.data)
          (f.params (kdfFn secret (opts.salt.getD randSalt) opts.size opts.kdf)))
        factors (shamirShare p opts.size secret coeffs factors.length)).length
      opts.size)
      (opts.salt.getD randSalt) opts.size opts.kdf =
    kdfFn secret (opts.salt.getD randSalt) opts.size opts.kdf
  rw [hcombine]

/-- Counterexample to C1 as written: for a valid factor list containing a
factor of type "persisted", supplying the full factor list on the derive
side yields a key ([7] after the identity KDF) different from the setup
key ([5]): the derive-side material of such a factor takes the persisted
bypass and its data is used as the share directly. -/
theorem roundtrip_counterexample :
    Except.map (fun K => K.key)
      (setupKey 257 constHkdf idKdf facsPersisted { size := 1 } "u" [9] [5]
        ([] : List (ZMod 257))) = Except.ok [5] ∧
    Except.map (fun K => Except.map (fun D => D.key)
        (deriveKey 257 constHkdf idKdf K.policy
          [("a", SuppliedEntry.callable
            (fun _ => FactorMaterial.mk "persisted" [7] none))]))
      (setupKey 257 constHkdf idKdf facsPersisted { size := 1 } "u" [9] [5]
        ([] : List (ZMod 257))) = Except.ok (Except.ok [7]) ∧
    ([7] : Bytes) ≠ [5] :=
  ⟨rfl, rfl, by decide⟩

/-- Witness for the amended C1 at two concrete factors with threshold
two, key size one and the prime 257. -/
theorem setup_derive_roundtrip_witness :
    (¬ facsRT.length = 0) ∧
    (¬ ((none : Option String).getD "u") = "") ∧
    (¬ (1 : Nat) = 0) ∧
    (¬ ((none : Option Nat).getD facsRT.length) = 0) ∧
    (¬ facsRT.length < (none : Option Nat).getD facsRT.length) ∧
    (∀ f ∈ facsRT, f.type ≠ "" ∧ f.id ≠ "" ∧ f.data ≠ []) ∧
    (∀ f ∈ facsRT, f.type ≠ "persisted") ∧
    (facsRT.map (fun f => f.id)).Nodup ∧
    ([5] : Bytes).length = 1 ∧
    (∀ b ∈ ([5] : Bytes), b < 256) ∧
    ([(3 : ZMod 257)].length = (none : Option Nat).getD facsRT.length - 1) ∧
    256 ^ 1 ≤ 257 ∧ 257 ≤ 256 ^ (1 + 1) ∧ facsRT.length < 257 ∧
    facsRT.Sublist facsRT ∧ (none : Option Nat).getD facsRT.length ≤ facsRT.length ∧
    ∃ K D,
      setupKey 257 constHkdf idKdf facsRT { size := 1 } "u" [0] [5] [(3 : ZMod 257)] =
        Except.ok K ∧
      deriveKey 257 constHkdf idKdf K.policy
        (facsRT.map (fun g =>
          (g.id, SuppliedEntry.callable
            (fun _ => FactorMaterial.mk g.type g.data none)))) = Except.ok D ∧
      D.key = K.key :=
  ⟨by decide, by decide, by decide, by decide, by decide, by decide, by decide, by decide,
   by decide, by decide, by decide, by decide, by decide, by decide,
   List.Sublist.refl facsRT, by decide,
   setup_derive_roundtrip 257 constHkdf idKdf constHkdf_length facsRT { size := 1 } "u"
     [0] [5] [(3 : ZMod 257)] facsRT (by decide) (by decide) (by decide) (by decide)
     (by decide) (by decide) (by decide) (by decide) (by decide) (by decide) (by decide)
     (by decide) (by decide) (by decide) (List.Sublist.refl facsRT) (by decide)⟩

end MFKDF
